import Mathlib

/-!
# Control2: a verification development for `main.go`

The Go program consists of three numeric routines (`SimularProofOfWork`,
`EncontrarPrimos`, `CalcularTrazaDeProductoDeMatrices`), the sequencing function
`EjecucionSecuencial` and `main`.  Each of them is embedded below as an executable
Lean function; the theorems about them follow the definitions.

Conventions of the embedding

* Go `int` is the 64-bit two's-complement integer.  Values are Lean integers and every
  operation that can leave the 64-bit range is followed by `wrapInt`.
* A Go call either returns, panics, is ended by a fatal error of the runtime, or is
  still running when the step budget of the model is used up: `Outcome`.
* Memory: an allocation panics as the runtime's `makeslice` does when its size is above
  `maxAlloc`, and it is a fatal "out of memory" error when the bytes allocated by the
  call no longer fit in `maxAlloc` bytes, the whole address space of the heap.
* Go `string` is Lean `String`; the operations used by the program act on its list of
  characters.
-/

namespace Control2

/-! ## Machine integers and outcomes -/

/-- Two's-complement reduction of an integer to the range of Go's 64-bit `int`. -/
def wrapInt (x : Int) : Int := (x + 2 ^ 63) % 2 ^ 64 - 2 ^ 63

/-- Result of running a piece of Go code inside the model. -/
inductive Outcome (α : Type) where
  /-- normal return with a value -/
  | returns : α → Outcome α
  /-- run-time panic with its message -/
  | panics : String → Outcome α
  /-- fatal error of the runtime with its message; the program ends -/
  | fatal : String → Outcome α
  /-- the step budget of the model ended before the code returned -/
  | timeout : Outcome α
  deriving Repr, DecidableEq

/-- Sequencing of outcomes: a panic, a fatal error or a timeout ends the computation. -/
def Outcome.bind {α β : Type} (x : Outcome α) (f : α → Outcome β) : Outcome β :=
  match x with
  | .returns a => f a
  | .panics msg => .panics msg
  | .fatal msg => .fatal msg
  | .timeout => .timeout

/-- The constant `maxAlloc` of the Go runtime on 64-bit platforms: the largest size of
one allocation and the size of the address space of the heap, `1 << 48` bytes. -/
def maxAlloc : Int := 2 ^ 48

instance : Monad Outcome where
  pure := Outcome.returns
  bind := Outcome.bind

/-- The loop `for i := lo; ...; i++ { body }` run for `count` iterations starting at `i`;
the body does not assign the loop variable. -/
def forLoopAux {σ : Type} (body : Int → σ → Outcome σ) : Nat → Int → σ → Outcome σ
  | 0, _, s => .returns s
  | k + 1, i, s => (body i s).bind (fun s' => forLoopAux body k (i + 1) s')

/-- The counted loop `for i := lo; i < hi; i++ { body }`.  It runs `hi - lo` times when
`lo < hi` and not at all otherwise; since `i < hi` holds before each increment, `i++`
stays inside the 64-bit range. -/
def forLoop {σ : Type} (lo hi : Int) (body : Int → σ → Outcome σ) (s : σ) : Outcome σ :=
  forLoopAux body (hi - lo).toNat lo s

/-! ## `EncontrarPrimos` -/

/-- Go's `i % j` on `int`: panics when the divisor is zero, otherwise the remainder of
the truncated division. -/
def goMod (i j : Int) : Outcome Int :=
  if j = 0 then .panics "runtime error: integer divide by zero" else .returns (Int.tmod i j)

/-- The inner loop of `EncontrarPrimos`,
`for j := 2; j*j <= i; j++ { if i%j == 0 { isPrime = false; break } }`,
started at the current `j` with `isPrime` still `true`; the result is the final value of
`isPrime`.  `fuel` bounds the number of evaluations of the loop condition. -/
def esPrimoDesde (i : Int) : Nat → Int → Outcome Bool
  | 0, _ => .timeout
  | fuel + 1, j =>
    if wrapInt (j * j) ≤ i then
      (goMod i j).bind (fun r =>
        if r = 0 then .returns false
        else esPrimoDesde i fuel (wrapInt (j + 1)))
    else .returns true

/-- Body of the outer loop of `EncontrarPrimos` for the candidate `i`. -/
def pasoPrimos (fuel : Nat) (i : Int) (primes : List Int) : Outcome (List Int) :=
  (esPrimoDesde i fuel 2).bind (fun isPrime =>
    if isPrime then .returns (primes ++ [i]) else .returns primes)

/-- The function `EncontrarPrimos(max)`; `fuel` is the step budget given to each run of the inner
loop. -/
def EncontrarPrimos (fuel : Nat) (max : Int) : Outcome (List Int) :=
  forLoop 2 max (pasoPrimos fuel) []

/-! ## `SimularProofOfWork` -/

/-- Value of Go's `[32]byte`, the result type of `sha256.Sum256`. -/
structure Bytes32 where
  /-- the bytes, first to last -/
  bytes : List (Fin 256)
  /-- an array of exactly 32 bytes -/
  size : bytes.length = 32

/-- The library function `strings.Repeat(s, count)`: it panics on a negative count, when
the length `len(s) * count` of the result is above the largest `int`, and, inside the
allocation of the result, when that length is above `maxAlloc`. -/
def stringsRepeat (s : String) (count : Int) : Outcome String :=
  if count < 0 then .panics "strings: negative Repeat count"
  else if 2 ^ 63 ≤ (s.utf8ByteSize : Int) * count then
    .panics "strings: Repeat output length overflow"
  else if maxAlloc < (s.utf8ByteSize : Int) * count then
    .panics "runtime error: makeslice: len out of range"
  else .returns ⟨(List.replicate count.toNat s.data).flatten⟩

/-- The library function `strings.HasPrefix(s, pre)`. -/
def stringsHasPrefix (s pre : String) : Bool := pre.data.isPrefixOf s.data

/-- The verb `%d` of `fmt.Sprintf` applied to an `int`. -/
def formatInt (n : Int) : String :=
  if n < 0 then "-" ++ Nat.repr n.natAbs else Nat.repr n.toNat

/-- The verb `%x` of `fmt.Sprintf` applied to a `[32]byte`: two lowercase hexadecimal
digits per byte. -/
def formatHex (h : Bytes32) : String :=
  ⟨h.bytes.flatMap (fun b => [Nat.digitChar (b.val / 16), Nat.digitChar (b.val % 16)])⟩

/-- The text hashed for a nonce, `fmt.Sprintf("%s%d", blockData, nonce)`. -/
def datosDelBloque (blockData : String) (nonce : Int) : String :=
  blockData ++ formatInt nonce

/-- The search loop of `SimularProofOfWork` from the current `nonce` on.  `sum256 data`
stands for `sha256.Sum256([]byte(data))`: SHA-256 is library code and enters as a
parameter, only its result type `[32]byte` is used.  `fuel` bounds the number of
candidates tested.  The counter is the 64-bit `int`: `nonce++` wraps from `2^63 - 1`
to `-2^63`. -/
def buscarNonce (sum256 : String → Bytes32) (blockData targetPrefix : String) :
    Nat → Int → Outcome (String × Int)
  | 0, _ => .timeout
  | fuel + 1, nonce =>
    let data := datosDelBloque blockData nonce
    let hashBytes := sum256 data
    let hashString := formatHex hashBytes
    if stringsHasPrefix hashString targetPrefix then .returns (hashString, nonce)
    else buscarNonce sum256 blockData targetPrefix fuel (wrapInt (nonce + 1))

/-- The function `SimularProofOfWork(blockData, dificultad)`: the target prefix is built
first, then the search starts at nonce 0. -/
def SimularProofOfWork (sum256 : String → Bytes32) (fuel : Nat) (blockData : String)
    (dificultad : Int) : Outcome (String × Int) :=
  (stringsRepeat "0" dificultad).bind (fun targetPrefix =>
    buscarNonce sum256 blockData targetPrefix fuel 0)

/-! ## `CalcularTrazaDeProductoDeMatrices` -/

/-- State of the global pseudo-random source of `math/rand`: the sequence of raw values
it is going to produce and the number of values already drawn. -/
structure RandSource where
  /-- raw value produced by the `k`-th draw -/
  stream : Nat → Nat
  /-- number of draws made so far -/
  drawn : Nat

/-- The library function `rand.Intn(k)`: the next value of the source reduced to `[0, k)`; panics when
`k <= 0`. -/
def RandSource.Intn (r : RandSource) (k : Int) : Outcome (Int × RandSource) :=
  if k ≤ 0 then .panics "invalid argument to Intn"
  else .returns (((r.stream r.drawn % k.toNat : Nat) : Int), { r with drawn := r.drawn + 1 })

/-- The allocation `make([]T, n)` of a slice whose elements take `elemSize` bytes each,
every element set to the zero value of `T`.  `heap` is the number of bytes the call has
allocated so far and the result carries the new count.  As in the runtime's `makeslice`,
a negative length and a size above `maxAlloc` panic; an allocation that no longer fits
in the `maxAlloc` bytes of the heap ends the program with the fatal error
"out of memory". -/
def makeSlice {α : Type} (elemSize n : Int) (zero : α) (heap : Int) :
    Outcome (List α × Int) :=
  if n < 0 ∨ maxAlloc < elemSize * n then
    .panics "runtime error: makeslice: len out of range"
  else if maxAlloc < heap + elemSize * n then .fatal "runtime: out of memory"
  else .returns (List.replicate n.toNat zero, heap + elemSize * n)

/-- The read `s[i]` with its bounds check. -/
def leer {α : Type} (s : List α) (i : Int) : Outcome α :=
  if i < 0 then .panics "runtime error: index out of range"
  else match s[i.toNat]? with
    | some v => .returns v
    | none => .panics "runtime error: index out of range"

/-- The assignment `s[i] = v` with its bounds check. -/
def escribir {α : Type} (s : List α) (i : Int) (v : α) : Outcome (List α) :=
  if i < 0 then .panics "runtime error: index out of range"
  else if i.toNat < s.length then .returns (s.set i.toNat v)
  else .panics "runtime error: index out of range"

/-- The read `m[i][j]`. -/
def leer2 (m : List (List Int)) (i j : Int) : Outcome Int :=
  (leer m i).bind (fun fila => leer fila j)

/-- The assignment `m[i][j] = v`: the row `m[i]` is updated in place. -/
def escribir2 (m : List (List Int)) (i j v : Int) : Outcome (List (List Int)) :=
  (leer m i).bind (fun fila => (escribir fila j v).bind (fun fila' => escribir m i fila'))

/-- The two matrices under construction together with the random source and the heap
in use. -/
structure Matrices where
  /-- first factor -/
  m1 : List (List Int)
  /-- second factor -/
  m2 : List (List Int)
  /-- random source after the draws made so far -/
  rand : RandSource
  /-- bytes allocated by the call so far -/
  memoria : Int

/-- Body of the loop over `j` that fills row `i`:
`m1[i][j] = rand.Intn(10); m2[i][j] = rand.Intn(10)`. -/
def llenarCelda (i j : Int) (s : Matrices) : Outcome Matrices :=
  (s.rand.Intn 10).bind (fun a =>
    (escribir2 s.m1 i j a.1).bind (fun m1 =>
      (a.2.Intn 10).bind (fun b =>
        (escribir2 s.m2 i j b.1).bind (fun m2 =>
          .returns { m1 := m1, m2 := m2, rand := b.2, memoria := s.memoria }))))

/-- Body of the loop over `i` of the first loop nest: both rows, slices of `n` values of
8 bytes, are allocated and then filled. -/
def llenarFila (n i : Int) (s : Matrices) : Outcome Matrices :=
  (makeSlice 8 n (0 : Int) s.memoria).bind (fun fila1 =>
    (escribir s.m1 i fila1.1).bind (fun m1 =>
      (makeSlice 8 n (0 : Int) fila1.2).bind (fun fila2 =>
        (escribir s.m2 i fila2.1).bind (fun m2 =>
          forLoop 0 n (llenarCelda i)
            { m1 := m1, m2 := m2, rand := s.rand, memoria := fila2.2 }))))

/-- Lines 54-63 of `main.go`: allocation of the two matrices, slices of `n` slice headers
of 24 bytes, and the first loop nest.  The count of allocated bytes starts at 0. -/
def generarMatrices (n : Int) (r : RandSource) : Outcome Matrices :=
  (makeSlice 24 n ([] : List Int) 0).bind (fun a1 =>
    (makeSlice 24 n ([] : List Int) a1.2).bind (fun a2 =>
      forLoop 0 n (llenarFila n) { m1 := a1.1, m2 := a2.1, rand := r, memoria := a2.2 }))

/-- Body of the loop over `k`: `sum += m1[i][k] * m2[k][i]` in 64-bit arithmetic. -/
def acumularProducto (m1 m2 : List (List Int)) (i k sum : Int) : Outcome Int :=
  (leer2 m1 i k).bind (fun a =>
    (leer2 m2 k i).bind (fun b =>
      .returns (wrapInt (sum + wrapInt (a * b)))))

/-- Body of the loop over `i` of the second loop nest: `sum := 0`, the loop over `k`,
then `trace += sum`. -/
def acumularFila (n : Int) (m1 m2 : List (List Int)) (i trace : Int) : Outcome Int :=
  (forLoop 0 n (acumularProducto m1 m2 i) 0).bind (fun sum =>
    .returns (wrapInt (trace + sum)))

/-- Lines 65-73 of `main.go`: the second loop nest, which accumulates the trace. -/
def trazaDeProducto (n : Int) (m1 m2 : List (List Int)) : Outcome Int :=
  forLoop 0 n (acumularFila n m1 m2) 0

/-- The function `CalcularTrazaDeProductoDeMatrices(n)`, run from the state `r` of the random source;
it returns the trace and the state of the source afterwards. -/
def CalcularTrazaDeProductoDeMatrices (n : Int) (r : RandSource) :
    Outcome (Int × RandSource) :=
  (generarMatrices n r).bind (fun s =>
    (trazaDeProducto n s.m1 s.m2).bind (fun trace =>
      .returns (trace, s.rand)))

/-! ## `EjecucionSecuencial` and `main` -/

/-- The workload run by `EjecucionSecuencial` together with the value it returned.  The
Go code discards that value; the model keeps it to record which function was called. -/
inductive Trabajo where
  /-- `SimularProofOfWork` ran and returned this pair -/
  | pruebaDeTrabajo : String × Int → Trabajo
  /-- `EncontrarPrimos` ran and returned this list -/
  | primos : List Int → Trabajo
  deriving DecidableEq

/-- What a call of `EjecucionSecuencial` leaves behind.  The `time.Duration` of the Go
result is wall-clock time and is not part of the model. -/
structure Ejecucion where
  /-- the returned label `ramaGanadora` -/
  ramaGanadora : String
  /-- the lines written by `fmt.Println` -/
  salida : List String
  /-- the workload that ran -/
  trabajo : Trabajo
  deriving DecidableEq

/-- The function `EjecucionSecuencial(n, umbral, blockData, dificultad, maxPrimos)`, run from the
state `r` of the random source. -/
def EjecucionSecuencial (sum256 : String → Bytes32) (fuel : Nat) (r : RandSource)
    (n umbral : Int) (blockData : String) (dificultad maxPrimos : Int) : Outcome Ejecucion :=
  (CalcularTrazaDeProductoDeMatrices n r).bind (fun resultadoTraza =>
    if resultadoTraza.1 > umbral then
      (SimularProofOfWork sum256 fuel blockData dificultad).bind (fun pow =>
        .returns { ramaGanadora := "A", salida := ["Se ejecutará la rama A"],
                   trabajo := .pruebaDeTrabajo pow })
    else
      (EncontrarPrimos fuel maxPrimos).bind (fun primes =>
        .returns { ramaGanadora := "B", salida := ["Se ejecutará la rama B"],
                   trabajo := .primos primes }))

/-- Console output of `main` for the parsed flag values `-n`, `-umbral` and `-archivo`:
the four `fmt.Printf` calls, which are all that `main` does after `flag.Parse`. -/
def main (n umbral : Int) (archivo : String) : List String :=
  [ "Configuración de la simulación:\n",
    "Dimensión de las matrices: " ++ formatInt n ++ "\n",
    "Valor umbral: " ++ formatInt umbral ++ "\n",
    "Archivo de salida: " ++ archivo ++ "\n" ]

/-! ## Specification-side definitions

Predicates, invariants and sample inputs used to state and prove the theorems. -/

/-- A step of the trial-division loop that neither stops nor finds a divisor. -/
def PasoLibre (i j : Int) : Prop :=
  wrapInt (j * j) ≤ i ∧ j ≠ 0 ∧ Int.tmod i j ≠ 0 ∧ wrapInt (j + 1) = j + 1

/-- The loop condition or the divisibility test stops the loop at `s` with answer `b`. -/
def Parada (i s : Int) (b : Bool) : Prop :=
  (i < wrapInt (s * s) ∧ b = true) ∨ (wrapInt (s * s) ≤ i ∧ s ≠ 0 ∧ Int.tmod i s = 0 ∧ b = false)

/-- The acceptance test of `SimularProofOfWork` for the nonce `m`: the hexadecimal
digest of `blockData` followed by the decimal form of `m` starts with `d` characters
`'0'`. -/
def Califica (sum256 : String → Bytes32) (blockData : String) (d m : Int) : Prop :=
  (formatHex (sum256 (datosDelBloque blockData m))).data.take d.toNat
    = List.replicate d.toNat '0'

instance (sum256 : String → Bytes32) (blockData : String) (d m : Int) :
    Decidable (Califica sum256 blockData d m) := by
  unfold Califica; infer_instance

/-- A sample function of the type of `sha256.Sum256`, used to run the model on concrete
inputs: all 32 bytes are `0x00` when the text ends in `'3'` and `0xff` otherwise. -/
def sumaDeMuestra (data : String) : Bytes32 :=
  ⟨List.replicate 32 (if data.data.getLast? = some '3' then 0 else 255), by simp⟩

/-- Value of the `k`-th call of `rand.Intn(10)` made from the state `r` on. -/
def sorteo (r : RandSource) (k : Nat) : Int := ((r.stream (r.drawn + k) % 10 : Nat) : Int)

/-- Rows `row1` of `m1` and `row2` of `m2` have length `N` and their first `t` cells hold
the draws made from position `base` of the stream on, alternating between the two. -/
def FilaLlena (st : Nat → Nat) (base N t : Nat) (row1 row2 : List Int) : Prop :=
  row1.length = N ∧ row2.length = N ∧
  ∀ j, j < t → row1[j]? = some ((st (base + 2 * j) % 10 : Nat) : Int) ∧
    row2[j]? = some ((st (base + 2 * j + 1) % 10 : Nat) : Int)

/-- Invariant of the loop over `j` that fills row `ii`, started from the matrices `A1`,
`A2` with the source at position `d0` and `M` bytes allocated. -/
def InvCelda (st : Nat → Nat) (d0 N ii : Nat) (A1 A2 : List (List Int)) (M : Int) (t : Nat)
    (s : Matrices) : Prop :=
  s.memoria = M ∧
  s.rand = ⟨st, d0 + 2 * t⟩ ∧ s.m1.length = A1.length ∧ s.m2.length = A2.length ∧
  (∀ i', i' ≠ ii → s.m1[i']? = A1[i']? ∧ s.m2[i']? = A2[i']?) ∧
  ∃ row1 row2, s.m1[ii]? = some row1 ∧ s.m2[ii]? = some row2 ∧ FilaLlena st d0 N t row1 row2

/-- Invariant of the loop over `i` of the first loop nest: after `t` rows the call has
allocated the two outer slices and `2 * t` rows. -/
def InvFila (st : Nat → Nat) (d N : Nat) (t : Nat) (s : Matrices) : Prop :=
  s.memoria = 48 * (N : Int) + 16 * ((t : Int) * N) ∧
  s.rand = ⟨st, d + 2 * (t * N)⟩ ∧ s.m1.length = N ∧ s.m2.length = N ∧
  ∀ i, i < t → ∃ row1 row2, s.m1[i]? = some row1 ∧ s.m2[i]? = some row2 ∧
    FilaLlena st (d + 2 * (i * N)) N N row1 row2

/-- Postcondition of the first loop nest run from the state `r` of the random source:
both matrices are `N`-by-`N`, cell `(i, j)` of `m1` holds draw number `2 * (i * N + j)`
and that of `m2` the draw after it, and `2 * N * N` values have been drawn. -/
def Generadas (r : RandSource) (N : Nat) (s : Matrices) : Prop :=
  s.rand = ⟨r.stream, r.drawn + 2 * (N * N)⟩ ∧ s.m1.length = N ∧ s.m2.length = N ∧
  ∀ i, i < N → ∃ row1 row2, s.m1[i]? = some row1 ∧ s.m2[i]? = some row2 ∧
    row1.length = N ∧ row2.length = N ∧
    ∀ j, j < N → row1[j]? = some (sorteo r (2 * (i * N + j))) ∧
      row2[j]? = some (sorteo r (2 * (i * N + j) + 1))

/-- The outcome is a failed allocation: the panic of `makeslice` or the fatal error
"out of memory". -/
def Falla {α : Type} (o : Outcome α) : Prop :=
  o = .panics "runtime error: makeslice: len out of range" ∨
    o = .fatal "runtime: out of memory"

/-- Entry `m[i][j]` of a slice of slices (`0` outside its bounds). -/
def entrada (m : List (List Int)) (i j : Nat) : Int := ((m[i]?).getD [])[j]?.getD 0

/-- The slice of slices `m` has `N` rows of length `N`. -/
def EsCuadrada (N : Nat) (m : List (List Int)) : Prop :=
  m.length = N ∧ ∀ i, i < N → ∃ row, m[i]? = some row ∧ row.length = N

/-- Every entry of the `N`-by-`N` matrix `m` lies between 0 and 9. -/
def EntradasDeCeroANueve (N : Nat) (m : List (List Int)) : Prop :=
  ∀ i k, i < N → k < N → 0 ≤ entrada m i k ∧ entrada m i k ≤ 9

/-- The slice of slices `m` read as an `N`-by-`N` integer matrix. -/
def comoMatriz (N : Nat) (m : List (List Int)) : Matrix (Fin N) (Fin N) Int :=
  Matrix.of (fun i j => entrada m i.val j.val)

/-- The double sum of the second loop nest over the integers,
`Σ_i Σ_k m1[i][k] * m2[k][i]`. -/
def sumaDoble (N : Nat) (m1 m2 : List (List Int)) : Int :=
  ∑ i in Finset.range N, ∑ k in Finset.range N, entrada m1 i k * entrada m2 k i

/-- A sample state of the random source: the `k`-th raw value is `k`. -/
def fuenteDeMuestra : RandSource := ⟨fun k => k, 0⟩

/-- The state of the random source whose raw values are all `9`. -/
def fuenteDeNueves : RandSource := ⟨fun _ => 9, 0⟩

/-- The state of the random source whose raw values are all `0`. -/
def fuenteDeCeros : RandSource := ⟨fun _ => 0, 0⟩

/-- The addition `a + b` of two Go `int` values with a panic in place of the silent
wrap-around: it returns exactly when the sum is inside the 64-bit range. -/
def sumaVerificada (a b : Int) : Outcome Int :=
  if -2 ^ 63 ≤ a + b ∧ a + b < 2 ^ 63 then .returns (a + b) else .panics "integer overflow"

/-- The product `a * b` of two Go `int` values with a panic in place of the silent
wrap-around. -/
def productoVerificado (a b : Int) : Outcome Int :=
  if -2 ^ 63 ≤ a * b ∧ a * b < 2 ^ 63 then .returns (a * b) else .panics "integer overflow"

/-- The statement `sum += m1[i][k] * m2[k][i]` with overflow detection. -/
def acumularProductoVerificado (m1 m2 : List (List Int)) (i k sum : Int) : Outcome Int :=
  (leer2 m1 i k).bind (fun a =>
    (leer2 m2 k i).bind (fun b =>
      (productoVerificado a b).bind (fun p => sumaVerificada sum p)))

/-- The body of the loop over `i` of the second loop nest with overflow detection. -/
def acumularFilaVerificada (n : Int) (m1 m2 : List (List Int)) (i trace : Int) :
    Outcome Int :=
  (forLoop 0 n (acumularProductoVerificado m1 m2 i) 0).bind (fun sum =>
    sumaVerificada trace sum)

/-- The second loop nest of `CalcularTrazaDeProductoDeMatrices` with overflow detection:
it returns exactly when no multiplication and no addition of the accumulation leaves the
64-bit range. -/
def trazaVerificada (n : Int) (m1 m2 : List (List Int)) : Outcome Int :=
  forLoop 0 n (acumularFilaVerificada n m1 m2) 0

/-- A second sample function of the type of `sha256.Sum256`: all 32 bytes are `0x00`
when the text starts with the sign `'-'` and `0xff` otherwise. -/
def sumaDeSigno (data : String) : Bytes32 :=
  ⟨List.replicate 32 (if data.data.head? = some '-' then 0 else 255), by simp⟩

/-! # Theorems -/

/-! ## Machine integers and loops: basic facts -/

theorem wrapInt_of_range {x : Int} (hlo : -2 ^ 63 ≤ x) (hhi : x < 2 ^ 63) : wrapInt x = x := by
  unfold wrapInt
  norm_num at hlo hhi ⊢
  omega

theorem bind_returns {α β : Type} (a : α) (f : α → Outcome β) :
    (Outcome.returns a).bind f = f a := rfl

theorem esPrimoDesde_parada (i s : Int) (b : Bool) (hs : Parada i s b) :
    ∀ (k : Nat) (j : Int) (fuel : Nat), s - j = k → k < fuel →
      (∀ t, j ≤ t → t < s → PasoLibre i t) → esPrimoDesde i fuel j = .returns b := by
  intro k
  induction k with
  | zero =>
    intro j fuel hk hf _
    have hj : j = s := by omega
    subst hj
    obtain ⟨f, rfl⟩ : ∃ f, fuel = f + 1 := ⟨fuel - 1, by omega⟩
    rcases hs with ⟨h1, h2⟩ | ⟨h1, h2, h3, h4⟩
    · simp [esPrimoDesde, not_le.mpr h1, h2]
    · simp [esPrimoDesde, h1, goMod, h2, h3, h4, Outcome.bind]
  | succ k ih =>
    intro j fuel hk hf hfree
    obtain ⟨f, rfl⟩ : ∃ f, fuel = f + 1 := ⟨fuel - 1, by omega⟩
    obtain ⟨h1, h2, h3, h4⟩ := hfree j le_rfl (by omega)
    have hrec := ih (j + 1) f (by omega) (by omega) (fun t ht hts => hfree t (by omega) hts)
    simp [esPrimoDesde, h1, goMod, h2, h3, h4, Outcome.bind, hrec]

/-! ## Trial division decides primality on the whole 64-bit range -/

theorem tmod_cast_eq_zero_iff (n m : Nat) : Int.tmod (n : Int) (m : Int) = 0 ↔ m ∣ n := by
  rw [← Int.dvd_iff_tmod_eq_zero, Int.natCast_dvd_natCast]

theorem wrapInt_cast_sq {m n : Nat} (h : m * m ≤ n) (hn : (n : Int) < 2 ^ 63) :
    wrapInt ((m : Int) * (m : Int)) = ((m * m : Nat) : Int) := by
  have h1 : ((m * m : Nat) : Int) ≤ (n : Int) := by exact_mod_cast h
  rw [wrapInt_of_range] <;> push_cast at h1 ⊢ <;> nlinarith

/-- A candidate with a proper divisor: the loop stops at its least factor. -/
theorem esPrimoDesde_compuesto (n fuel : Nat) (h2 : 2 ≤ n) (hn : (n : Int) < 2 ^ 63)
    (hf : n ≤ fuel + 1) (hp : ¬ Nat.Prime n) : esPrimoDesde (n : Int) fuel 2 = .returns false := by
  have hd2 : 2 ≤ n.minFac := (Nat.minFac_prime (by omega)).two_le
  have hsq : n.minFac * n.minFac ≤ n := by
    have := Nat.minFac_sq_le_self (by omega : 0 < n) hp
    nlinarith
  have hdn : n.minFac ≤ n := Nat.minFac_le (by omega)
  refine esPrimoDesde_parada (n : Int) (n.minFac : Int) false ?_ (n.minFac - 2) 2 fuel
    (by omega) (by omega) ?_
  · right
    refine ⟨?_, by omega, (tmod_cast_eq_zero_iff _ _).2 (Nat.minFac_dvd n), rfl⟩
    rw [wrapInt_cast_sq hsq hn]
    exact_mod_cast hsq
  · intro t ht hts
    obtain ⟨m, rfl⟩ : ∃ m : Nat, t = (m : Int) := ⟨t.toNat, by omega⟩
    have hm2 : 2 ≤ m := by exact_mod_cast ht
    have hmd : m < n.minFac := by exact_mod_cast hts
    have hmm : m * m ≤ n := le_trans (Nat.mul_le_mul hmd.le hmd.le) hsq
    refine ⟨?_, by omega, ?_, ?_⟩
    · rw [wrapInt_cast_sq hmm hn]
      exact_mod_cast hmm
    · rw [Ne, tmod_cast_eq_zero_iff]
      intro hdvd
      exact absurd (Nat.minFac_le_of_dvd hm2 hdvd) (by omega)
    · apply wrapInt_of_range <;> norm_num at hn ⊢ <;> omega

/-- For every prime below `2^63` some `m` between 2 and the prime has a 64-bit square
above the prime, so the loop condition `j*j <= i` does fail before `j` reaches `i`.
Up to `3037000499 ^ 2` the product does not overflow; above it the overflowed product
of `2759374635167858507` is `2^63 - 7`, and `2^63 - 7 .. 2^63 - 1` are composite. -/
theorem existe_parada (n : Nat) (hn : (n : Int) < 2 ^ 63) (hp : Nat.Prime n) :
    ∃ m : Nat, 2 ≤ m ∧ m ≤ n ∧ (n : Int) < wrapInt ((m : Int) * (m : Int)) := by
  have h2 := hp.two_le
  have hn' : n < 9223372036854775808 := by norm_num at hn; exact_mod_cast hn
  by_cases c1 : n ≤ 3037000499
  · refine ⟨n, h2, le_rfl, ?_⟩
    rw [wrapInt_of_range] <;> norm_num <;> nlinarith
  by_cases c2 : n < 9223372030926249001
  · refine ⟨3037000499, by norm_num, by omega, ?_⟩
    have : wrapInt (((3037000499 : Nat) : Int) * ((3037000499 : Nat) : Int))
        = 9223372030926249001 := by norm_num [wrapInt]
    rw [this]; omega
  by_cases c3 : n ≤ 9223372036854775800
  · refine ⟨2759374635167858507, by norm_num, by omega, ?_⟩
    have : wrapInt (((2759374635167858507 : Nat) : Int) * ((2759374635167858507 : Nat) : Int))
        = 9223372036854775801 := by norm_num [wrapInt]
    rw [this]; omega
  exfalso
  have hcases : n = 9223372036854775801 ∨ n = 9223372036854775802 ∨ n = 9223372036854775803
      ∨ n = 9223372036854775804 ∨ n = 9223372036854775805 ∨ n = 9223372036854775806
      ∨ n = 9223372036854775807 := by omega
  rcases hcases with h | h | h | h | h | h | h <;> subst h <;> revert hp <;> norm_num

/-- A prime candidate: the loop runs until the loop condition fails and finds no divisor. -/
theorem esPrimoDesde_primo (n fuel : Nat) (hn : (n : Int) < 2 ^ 63)
    (hf : n ≤ fuel + 1) (hp : Nat.Prime n) : esPrimoDesde (n : Int) fuel 2 = .returns true := by
  classical
  have hex : ∃ m : Nat, 2 ≤ m ∧ (n : Int) < wrapInt ((m : Int) * (m : Int)) := by
    obtain ⟨m, h1, _, h3⟩ := existe_parada n hn hp
    exact ⟨m, h1, h3⟩
  obtain ⟨m0, hm0, hm0n, hm0w⟩ := existe_parada n hn hp
  have hs := Nat.find_spec hex
  have hsle : Nat.find hex ≤ m0 := Nat.find_min' hex ⟨hm0, hm0w⟩
  refine esPrimoDesde_parada (n : Int) (Nat.find hex : Int) true (Or.inl ⟨hs.2, rfl⟩)
    (Nat.find hex - 2) 2 fuel (by omega) (by omega) ?_
  intro t ht hts
  obtain ⟨m, rfl⟩ : ∃ m : Nat, t = (m : Int) := ⟨t.toNat, by omega⟩
  have hm2 : 2 ≤ m := by exact_mod_cast ht
  have hmd : m < Nat.find hex := by exact_mod_cast hts
  have hnot := Nat.find_min hex hmd
  refine ⟨?_, by omega, ?_, ?_⟩
  · by_contra hc
    exact hnot ⟨hm2, not_le.mp hc⟩
  · rw [Ne, tmod_cast_eq_zero_iff]
    intro hdvd
    rcases (Nat.dvd_prime hp).1 hdvd with h | h <;> omega
  · apply wrapInt_of_range <;> norm_num at hn ⊢ <;> omega

/-- The inner loop of `EncontrarPrimos` is a primality test for every candidate in the
64-bit range. -/
theorem esPrimoDesde_spec (n fuel : Nat) (h2 : 2 ≤ n) (hn : (n : Int) < 2 ^ 63)
    (hf : n ≤ fuel + 1) : esPrimoDesde (n : Int) fuel 2 = .returns (decide (Nat.Prime n)) := by
  by_cases hp : Nat.Prime n
  · simp [hp, esPrimoDesde_primo n fuel hn hf hp]
  · simp [hp, esPrimoDesde_compuesto n fuel h2 hn hf hp]

/-! ## The outer loop of `EncontrarPrimos` -/

theorem forLoopAux_pasoPrimos (fuel : Nat) :
    ∀ (k a : Nat) (primes : List Int), 2 ≤ a → ((a + k : Nat) : Int) ≤ 2 ^ 63 → a + k ≤ fuel + 2 →
      forLoopAux (pasoPrimos fuel) k (a : Int) primes
        = .returns (primes ++ ((List.range' a k).filter (fun m => decide (Nat.Prime m))).map
            (fun m : Nat => (m : Int))) := by
  intro k
  induction k with
  | zero => intro a primes _ _ _; simp [forLoopAux]
  | succ k ih =>
    intro a primes ha hk hf
    have hlt : (a : Int) < 2 ^ 63 := by push_cast at hk; omega
    have hrec := ih (a + 1) (if Nat.Prime a then primes ++ [(a : Int)] else primes) (by omega)
      (by push_cast at hk ⊢; omega) (by omega)
    rw [forLoopAux, pasoPrimos, esPrimoDesde_spec a fuel ha hlt (by omega)]
    push_cast at hrec
    by_cases hp : Nat.Prime a
    · simp only [hp, if_true] at hrec
      simp [Outcome.bind, hp, List.range'_succ, hrec]
    · simp only [hp, if_false] at hrec
      simp [Outcome.bind, hp, List.range'_succ, hrec]

theorem EncontrarPrimos_eq (fuel : Nat) (max : Int) (hmax : max < 2 ^ 63) (hf : max ≤ fuel) :
    EncontrarPrimos fuel max
      = .returns (((List.range' 2 (max - 2).toNat).filter (fun m => decide (Nat.Prime m))).map
          (fun m : Nat => (m : Int))) := by
  have h := forLoopAux_pasoPrimos fuel (max - 2).toNat 2 [] le_rfl
    (by norm_num at hmax ⊢; omega) (by omega)
  simpa [EncontrarPrimos, forLoop] using h

theorem mem_primos (max p : Int) :
    p ∈ ((List.range' 2 (max - 2).toNat).filter (fun m => decide (Nat.Prime m))).map
        (fun m : Nat => (m : Int))
      ↔ 2 ≤ p ∧ p < max ∧ Nat.Prime p.toNat := by
  simp only [List.mem_map, List.mem_filter, List.mem_range'_1, decide_eq_true_eq]
  constructor
  · rintro ⟨m, ⟨⟨h1, h2⟩, h3⟩, rfl⟩
    refine ⟨by exact_mod_cast h1, by omega, by simpa using h3⟩
  · rintro ⟨h1, h2, h3⟩
    exact ⟨p.toNat, ⟨⟨by omega, by omega⟩, h3⟩, by omega⟩

theorem pairwise_primos (max : Int) :
    List.Pairwise (fun a b : Int => a < b)
      (((List.range' 2 (max - 2).toNat).filter (fun m => decide (Nat.Prime m))).map
        (fun m : Nat => (m : Int))) := by
  rw [List.pairwise_map]
  apply List.Pairwise.filter
  exact (List.pairwise_lt_range' 2 _).imp (fun h => by exact_mod_cast h)

/-! ## The search loop of `SimularProofOfWork` -/

theorem flatten_replicate_singleton (k : Nat) (c : Char) :
    (List.replicate k [c]).flatten = List.replicate k c := by
  induction k with
  | zero => rfl
  | succ k ih => simp [List.replicate_succ, ih]

theorem utf8ByteSize_cero : (("0" : String).utf8ByteSize : Int) = 1 := by decide

/-- The target prefix is built exactly for the counts between 0 and `maxAlloc`. -/
theorem stringsRepeat_cero (d : Int) (hd : 0 ≤ d) (hmax : d ≤ 2 ^ 48) :
    stringsRepeat "0" d = .returns ⟨List.replicate d.toNat '0'⟩ := by
  have h : ("0" : String).data = ['0'] := rfl
  have h1 : ¬ (2 : Int) ^ 63 ≤ 1 * d := by norm_num at hmax ⊢; omega
  have h2 : ¬ maxAlloc < 1 * d := by unfold maxAlloc; norm_num at hmax ⊢; omega
  rw [stringsRepeat, if_neg (not_lt.mpr hd), utf8ByteSize_cero, if_neg h1, if_neg h2, h,
    flatten_replicate_singleton]

theorem stringsRepeat_returns (d : Int) (tp : String)
    (h : stringsRepeat "0" d = .returns tp) :
    0 ≤ d ∧ d ≤ 2 ^ 48 ∧ tp = ⟨List.replicate d.toNat '0'⟩ := by
  by_cases hd : d < 0
  · rw [stringsRepeat, if_pos hd] at h; cases h
  by_cases hmax : d ≤ 2 ^ 48
  · rw [stringsRepeat_cero d (not_lt.mp hd) hmax] at h
    cases h
    exact ⟨not_lt.mp hd, hmax, rfl⟩
  · exfalso
    rw [stringsRepeat, if_neg hd, utf8ByteSize_cero] at h
    by_cases h1 : (2 : Int) ^ 63 ≤ 1 * d
    · rw [if_pos h1] at h; cases h
    · have h2 : maxAlloc < 1 * d := by unfold maxAlloc; norm_num at hmax ⊢; omega
      rw [if_neg h1, if_pos h2] at h; cases h

theorem stringsHasPrefix_replicate (s : String) (k : Nat) (c : Char) :
    stringsHasPrefix s ⟨List.replicate k c⟩ = true ↔ s.data.take k = List.replicate k c := by
  unfold stringsHasPrefix
  rw [List.isPrefixOf_iff_prefix, List.prefix_iff_eq_take]
  simp [eq_comm]

theorem length_formatHex (h : Bytes32) : (formatHex h).data.length = 64 := by
  have key : ∀ l : List (Fin 256),
      (l.flatMap (fun b => [Nat.digitChar (b.val / 16), Nat.digitChar (b.val % 16)])).length
        = 2 * l.length := by
    intro l
    induction l with
    | nil => rfl
    | cons b l ih => simp [List.flatMap_cons, ih]; omega
  simp [formatHex, key, h.size]

theorem wrapInt_succ (x : Int) : wrapInt (wrapInt x + 1) = wrapInt (x + 1) := by
  unfold wrapInt
  norm_num
  omega

theorem wrapInt_zero : wrapInt 0 = 0 := by decide

/-- Whatever the loop returns, started at the counter value `wrapInt j`, is the first
counter value that passes the test in the order in which the 64-bit counter takes its
values, with the digest computed for it: it is reached after `k` increments and none of
the values before it passes. -/
theorem buscarNonce_returns (sum256 : String → Bytes32) (blockData tp : String) :
    ∀ (fuel : Nat) (j : Int) (digest : String) (nonce : Int),
      buscarNonce sum256 blockData tp fuel (wrapInt j) = .returns (digest, nonce) →
      ∃ k : Nat, k < fuel ∧ nonce = wrapInt (j + k) ∧
        digest = formatHex (sum256 (datosDelBloque blockData nonce)) ∧
        stringsHasPrefix digest tp = true ∧
        ∀ i : Nat, i < k →
          stringsHasPrefix (formatHex (sum256 (datosDelBloque blockData (wrapInt (j + i)))))
            tp = false := by
  intro fuel
  induction fuel with
  | zero => intro j digest nonce h; simp [buscarNonce] at h
  | succ fuel ih =>
    intro j digest nonce h
    rw [buscarNonce] at h
    by_cases hq : stringsHasPrefix
        (formatHex (sum256 (datosDelBloque blockData (wrapInt j)))) tp = true
    · simp only [hq, if_true, Outcome.returns.injEq, Prod.mk.injEq] at h
      obtain ⟨h1, h2⟩ := h
      subst h2
      refine ⟨0, by omega, by simp, h1.symm, h1 ▸ hq, fun i hi => absurd hi (by omega)⟩
    · simp only [hq] at h
      rw [wrapInt_succ] at h
      obtain ⟨k, hk, h1, h2, h3, h4⟩ := ih (j + 1) digest nonce h
      refine ⟨k + 1, by omega, ?_, h2, h3, fun i hi => ?_⟩
      · rw [h1]; congr 1; push_cast; ring
      · rcases Nat.eq_zero_or_pos i with h0 | h0
        · subst h0; simpa using hq
        · obtain ⟨i', rfl⟩ : ∃ i', i = i' + 1 := ⟨i - 1, by omega⟩
          have := h4 i' (by omega)
          rw [show j + 1 + (i' : Int) = j + ((i' + 1 : Nat) : Int) by push_cast; ring] at this
          exact this

/-- The loop returns the first passing counter value as soon as the budget reaches it. -/
theorem buscarNonce_found (sum256 : String → Bytes32) (blockData tp : String) :
    ∀ (k fuel : Nat) (j : Int), k < fuel →
      (∀ i : Nat, i < k →
        stringsHasPrefix (formatHex (sum256 (datosDelBloque blockData (wrapInt (j + i)))))
          tp = false) →
      stringsHasPrefix (formatHex (sum256 (datosDelBloque blockData (wrapInt (j + k)))))
        tp = true →
      buscarNonce sum256 blockData tp fuel (wrapInt j)
        = .returns (formatHex (sum256 (datosDelBloque blockData (wrapInt (j + k)))),
            wrapInt (j + k)) := by
  intro k
  induction k with
  | zero =>
    intro fuel j hf _ hq
    obtain ⟨f, rfl⟩ : ∃ f, fuel = f + 1 := ⟨fuel - 1, by omega⟩
    simp only [Nat.cast_zero, add_zero] at hq ⊢
    simp [buscarNonce, hq]
  | succ k ih =>
    intro fuel j hf hno hq
    obtain ⟨f, rfl⟩ : ∃ f, fuel = f + 1 := ⟨fuel - 1, by omega⟩
    have h0 := hno 0 (by omega)
    simp only [Nat.cast_zero, add_zero] at h0
    have e : j + 1 + (k : Int) = j + ((k + 1 : Nat) : Int) := by push_cast; ring
    have hrec := ih f (j + 1) (by omega)
      (fun i hi => by
        have := hno (i + 1) (by omega)
        rwa [show j + ((i + 1 : Nat) : Int) = j + 1 + (i : Int) by push_cast; ring] at this)
      (by rw [e]; exact hq)
    rw [e] at hrec
    rw [buscarNonce]
    simp only [h0, Bool.false_eq_true, if_false]
    rw [wrapInt_succ]
    exact hrec

/-! ## `SimularProofOfWork`: consequences for the whole function -/

theorem califica_iff (sum256 : String → Bytes32) (blockData : String) (d m : Int) :
    stringsHasPrefix (formatHex (sum256 (datosDelBloque blockData m)))
      ⟨List.replicate d.toNat '0'⟩ = true ↔ Califica sum256 blockData d m :=
  stringsHasPrefix_replicate _ _ _

theorem SimularProofOfWork_eq (sum256 : String → Bytes32) (fuel : Nat) (blockData : String)
    (d : Int) (hd : 0 ≤ d) (hmax : d ≤ 2 ^ 48) :
    SimularProofOfWork sum256 fuel blockData d
      = buscarNonce sum256 blockData ⟨List.replicate d.toNat '0'⟩ fuel (wrapInt 0) := by
  rw [SimularProofOfWork, stringsRepeat_cero d hd hmax, bind_returns, wrapInt_zero]

theorem SimularProofOfWork_returns_rango (sum256 : String → Bytes32) (fuel : Nat)
    (blockData : String) (d : Int) (r : String × Int)
    (h : SimularProofOfWork sum256 fuel blockData d = .returns r) : 0 ≤ d ∧ d ≤ 2 ^ 48 := by
  rw [SimularProofOfWork] at h
  cases hrep : stringsRepeat "0" d with
  | returns tp => exact ⟨(stringsRepeat_returns d tp hrep).1, (stringsRepeat_returns d tp hrep).2.1⟩
  | panics msg => rw [hrep] at h; cases h
  | fatal msg => rw [hrep] at h; cases h
  | timeout => rw [hrep] at h; cases h

/-- Everything known about a returned pair: the nonce is the value of the 64-bit counter
after `k` increments, it passes the test, no earlier value of the counter does, and the
digest is the one computed for it. -/
theorem SimularProofOfWork_returns_spec (sum256 : String → Bytes32) (fuel : Nat)
    (blockData : String) (d : Int) (digest : String) (nonce : Int)
    (h : SimularProofOfWork sum256 fuel blockData d = .returns (digest, nonce)) :
    ∃ k : Nat, k < fuel ∧ k < 2 ^ 64 ∧ nonce = wrapInt k ∧
      digest = formatHex (sum256 (datosDelBloque blockData nonce)) ∧
      Califica sum256 blockData d nonce ∧
      ∀ i : Nat, i < k → ¬ Califica sum256 blockData d (wrapInt i) := by
  obtain ⟨hd, hmax⟩ := SimularProofOfWork_returns_rango sum256 fuel blockData d _ h
  rw [SimularProofOfWork_eq sum256 fuel blockData d hd hmax] at h
  obtain ⟨k, hk, h1, h2, h3, h4⟩ := buscarNonce_returns sum256 blockData _ fuel 0 digest nonce h
  rw [zero_add] at h1
  have hq : Califica sum256 blockData d nonce := by rw [← califica_iff, ← h2]; exact h3
  have hno : ∀ i : Nat, i < k → ¬ Califica sum256 blockData d (wrapInt i) := by
    intro i hi hc
    have := h4 i hi
    rw [zero_add] at this
    rw [← califica_iff, this] at hc
    cases hc
  refine ⟨k, hk, ?_, h1, h2, hq, hno⟩
  by_contra hbig
  have hbig' : 2 ^ 64 ≤ k := not_lt.mp hbig
  have hw : wrapInt ((k - 2 ^ 64 : Nat) : Int) = wrapInt (k : Int) := by
    unfold wrapInt
    norm_num at hbig' ⊢
    omega
  have hpos : 0 < 2 ^ 64 := by norm_num
  exact hno (k - 2 ^ 64) (by omega) (by rw [hw, ← h1]; exact hq)

theorem no_califica_de_65 (sum256 : String → Bytes32) (blockData : String) (d m : Int)
    (hd : 64 < d) : ¬ Califica sum256 blockData d m := by
  intro h
  have hlen := congrArg List.length h
  rw [List.length_take, List.length_replicate, length_formatHex] at hlen
  omega

theorem buscarNonce_timeout (sum256 : String → Bytes32) (blockData : String) (d : Int)
    (hd : 64 < d) : ∀ (fuel : Nat) (n0 : Int),
      buscarNonce sum256 blockData ⟨List.replicate d.toNat '0'⟩ fuel n0 = .timeout := by
  intro fuel
  induction fuel with
  | zero => intro n0; rfl
  | succ fuel ih =>
    intro n0
    have h := no_califica_de_65 sum256 blockData d n0 hd
    rw [← califica_iff] at h
    simp [buscarNonce, h, ih]

/-- Above 64 zeros the call never returns, whatever happens in `strings.Repeat`. -/
theorem SimularProofOfWork_no_retorna (sum256 : String → Bytes32) (fuel : Nat)
    (blockData : String) (d : Int) (hd : 64 < d) (r : String × Int) :
    SimularProofOfWork sum256 fuel blockData d ≠ .returns r := by
  intro h
  obtain ⟨_, _, _, _, _, hq, _⟩ :=
    SimularProofOfWork_returns_spec sum256 fuel blockData d r.1 r.2 h
  exact no_califica_de_65 sum256 blockData d r.2 hd hq

theorem SimularProofOfWork_timeout (sum256 : String → Bytes32) (fuel : Nat)
    (blockData : String) (d : Int) (hd : 64 < d) (hmax : d ≤ 2 ^ 48) :
    SimularProofOfWork sum256 fuel blockData d = .timeout := by
  rw [SimularProofOfWork_eq sum256 fuel blockData d (by omega) hmax,
    buscarNonce_timeout sum256 blockData d hd]

/-! ## Claims about `EncontrarPrimos` -/

/-- C1: for every 64-bit `max`, `EncontrarPrimos(max)` returns a list that contains
exactly the primes `p` with `2 <= p < max`; the inner loop, overflow of `j*j` included,
answers `true` exactly for the prime candidates, and "no `j >= 2` with `j*j <= i` divides
`i`" is equivalent to `i` being prime for every `i >= 2`. -/
theorem EncontrarPrimos_exactamente_los_primos (max : Int) (fuel : Nat)
    (hmax : max < 2 ^ 63) (hfuel : max ≤ fuel) :
    (∃ primes, EncontrarPrimos fuel max = .returns primes ∧
      ∀ p : Int, p ∈ primes ↔ (2 ≤ p ∧ p < max ∧ Nat.Prime p.toNat)) ∧
    (∀ i : Int, 2 ≤ i → i < max →
      esPrimoDesde i fuel 2 = .returns (decide (Nat.Prime i.toNat))) ∧
    (∀ i : Int, 2 ≤ i →
      ((∀ j : Int, 2 ≤ j → j * j ≤ i → ¬ j ∣ i) ↔ Nat.Prime i.toNat)) := by
  refine ⟨⟨_, EncontrarPrimos_eq fuel max hmax hfuel, mem_primos max⟩, ?_, ?_⟩
  · intro i h2 hi
    have h := esPrimoDesde_spec i.toNat fuel (by omega) (by rw [Int.toNat_of_nonneg (by omega)]; omega)
      (by omega)
    rwa [Int.toNat_of_nonneg (by omega)] at h
  · intro i h2
    obtain ⟨n, rfl⟩ : ∃ n : Nat, i = (n : Int) := ⟨i.toNat, by omega⟩
    have hn2 : 2 ≤ n := by exact_mod_cast h2
    rw [Int.toNat_ofNat]
    constructor
    · intro h
      by_contra hp
      have hd2 : 2 ≤ n.minFac := (Nat.minFac_prime (by omega)).two_le
      have hsq : n.minFac * n.minFac ≤ n := by
        have := Nat.minFac_sq_le_self (by omega : 0 < n) hp
        nlinarith
      exact h (n.minFac : Int) (by exact_mod_cast hd2) (by exact_mod_cast hsq)
        (Int.natCast_dvd_natCast.2 (Nat.minFac_dvd n))
    · intro hp j hj hjj hdvd
      obtain ⟨m, rfl⟩ : ∃ m : Nat, j = (m : Int) := ⟨j.toNat, by omega⟩
      have hm2 : 2 ≤ m := by exact_mod_cast hj
      have hmm : m * m ≤ n := by exact_mod_cast hjj
      rcases (Nat.dvd_prime hp).1 (Int.natCast_dvd_natCast.1 hdvd) with h | h
      · omega
      · subst h; nlinarith

theorem EncontrarPrimos_exactamente_los_primos_witness :
    (10 : Int) < 2 ^ 63 ∧ (10 : Int) ≤ (10 : Nat) ∧
    ((∃ primes, EncontrarPrimos 10 10 = .returns primes ∧
      ∀ p : Int, p ∈ primes ↔ (2 ≤ p ∧ p < 10 ∧ Nat.Prime p.toNat)) ∧
    (∀ i : Int, 2 ≤ i → i < 10 →
      esPrimoDesde i 10 2 = .returns (decide (Nat.Prime i.toNat))) ∧
    (∀ i : Int, 2 ≤ i →
      ((∀ j : Int, 2 ≤ j → j * j ≤ i → ¬ j ∣ i) ↔ Nat.Prime i.toNat))) :=
  ⟨by decide, by decide, EncontrarPrimos_exactamente_los_primos 10 10 (by decide) (by decide)⟩

/-- C2: for every 64-bit `max`, the list returned by `EncontrarPrimos(max)` is strictly
increasing, hence without duplicates. -/
theorem EncontrarPrimos_estrictamente_creciente (max : Int) (fuel : Nat)
    (hmax : max < 2 ^ 63) (hfuel : max ≤ fuel) :
    ∃ primes, EncontrarPrimos fuel max = .returns primes ∧
      List.Pairwise (fun a b : Int => a < b) primes ∧ primes.Nodup :=
  ⟨_, EncontrarPrimos_eq fuel max hmax hfuel, pairwise_primos max,
    (pairwise_primos max).imp (fun h => ne_of_lt h)⟩

theorem EncontrarPrimos_estrictamente_creciente_witness :
    (30 : Int) < 2 ^ 63 ∧ (30 : Int) ≤ (30 : Nat) ∧
    ∃ primes, EncontrarPrimos 30 30 = .returns primes ∧
      List.Pairwise (fun a b : Int => a < b) primes ∧ primes.Nodup :=
  ⟨by decide, by decide, EncontrarPrimos_estrictamente_creciente 30 30 (by decide) (by decide)⟩

/-- C9: `EncontrarPrimos(10)` returns exactly `[2, 3, 5, 7]`, with any budget of at
least two steps for the inner loop. -/
theorem EncontrarPrimos_de_diez (fuel : Nat) :
    EncontrarPrimos (fuel + 2) 10 = .returns [2, 3, 5, 7] := rfl

/-- C10: for every 64-bit `max`, zero and negative values included,
`EncontrarPrimos(max)` returns the empty list if and only if `max <= 2`. -/
theorem EncontrarPrimos_vacio_sii (max : Int) (fuel : Nat)
    (hmax : max < 2 ^ 63) (hfuel : max ≤ fuel) :
    ∃ primes, EncontrarPrimos fuel max = .returns primes ∧ (primes = [] ↔ max ≤ 2) := by
  refine ⟨_, EncontrarPrimos_eq fuel max hmax hfuel, ?_⟩
  constructor
  · intro h
    by_contra hgt
    have hmem := (mem_primos max 2).2 ⟨le_rfl, by omega, Nat.prime_two⟩
    rw [h] at hmem
    cases hmem
  · intro h
    have : (max - 2).toNat = 0 := by omega
    simp [this]

theorem EncontrarPrimos_vacio_sii_witness :
    (2 : Int) < 2 ^ 63 ∧ (2 : Int) ≤ (2 : Nat) ∧
    ∃ primes, EncontrarPrimos 2 2 = .returns primes ∧ (primes = [] ↔ (2 : Int) ≤ 2) :=
  ⟨by decide, by decide, EncontrarPrimos_vacio_sii 2 2 (by decide) (by decide)⟩

/-! ## Claims about `SimularProofOfWork` -/

theorem wrapInt_rango (x : Int) : -2 ^ 63 ≤ wrapInt x ∧ wrapInt x < 2 ^ 63 := by
  unfold wrapInt
  norm_num
  omega

theorem digitChar_ne_menos (n : Nat) : Nat.digitChar (n % 10) ≠ '-' := by
  have h : n % 10 < 10 := Nat.mod_lt _ (by norm_num)
  generalize n % 10 = m at h
  interval_cases m <;> decide

theorem toDigitsCore_sin_menos : ∀ (fuel n : Nat) (ds : List Char),
    (∀ c ∈ ds, c ≠ '-') → ∀ c ∈ Nat.toDigitsCore 10 fuel n ds, c ≠ '-' := by
  intro fuel
  induction fuel with
  | zero => intro n ds hds c hc; exact hds c hc
  | succ fuel ih =>
    intro n ds hds c hc
    have hcons : ∀ c ∈ Nat.digitChar (n % 10) :: ds, c ≠ '-' := by
      intro c hc
      rcases List.mem_cons.1 hc with h | h
      · rw [h]; exact digitChar_ne_menos n
      · exact hds c h
    rw [Nat.toDigitsCore] at hc
    by_cases h0 : n / 10 = 0
    · simp only [h0, if_true] at hc
      exact hcons c hc
    · simp only [h0, if_false] at hc
      exact ih (n / 10) _ hcons c hc

/-- The decimal form of a non-negative `int` does not start with a sign. -/
theorem formatInt_sin_signo (m : Int) (hm : 0 ≤ m) : (formatInt m).data.head? ≠ some '-' := by
  have hrepr : (formatInt m).data = Nat.toDigitsCore 10 (m.toNat + 1) m.toNat [] := by
    rw [formatInt, if_neg (not_lt.mpr hm)]
    rfl
  intro h
  rw [hrepr] at h
  have hmem := List.mem_of_mem_head? h
  exact toDigitsCore_sin_menos _ _ [] (fun c hc => by cases hc) _ hmem rfl

/-- The decimal form of a negative `int` starts with the sign. -/
theorem formatInt_con_signo (m : Int) (hm : m < 0) : (formatInt m).data.head? = some '-' := by
  rw [formatInt, if_pos hm, String.data_append]
  rfl

theorem formatHex_sumaDeSigno (data : String) :
    formatHex (sumaDeSigno data)
      = if data.data.head? = some '-' then
          "0000000000000000000000000000000000000000000000000000000000000000"
        else "ffffffffffffffffffffffffffffffffffffffffffffffffffffffffffffffff" := by
  by_cases h : data.data.head? = some '-'
  · simp only [sumaDeSigno, h, if_true]; rfl
  · simp only [sumaDeSigno, h, if_false]; rfl

/-- C3: whenever `SimularProofOfWork(payload, d)` returns `(digest, nonce)`, which it can
do only for `d >= 0`, the first `d` characters of `digest` are all `'0'` and `digest` is
the lowercase hexadecimal form of the hash of `payload` followed by the decimal form of
`nonce`. -/
theorem SimularProofOfWork_digest_correcto (sum256 : String → Bytes32) (fuel : Nat)
    (blockData : String) (dificultad : Int) (digest : String) (nonce : Int)
    (h : SimularProofOfWork sum256 fuel blockData dificultad = .returns (digest, nonce)) :
    0 ≤ dificultad ∧ digest.data.take dificultad.toNat = List.replicate dificultad.toNat '0' ∧
      digest = formatHex (sum256 (blockData ++ formatInt nonce)) := by
  obtain ⟨_, _, _, _, h2, h3, _⟩ :=
    SimularProofOfWork_returns_spec sum256 fuel blockData dificultad digest nonce h
  rw [h2]
  exact ⟨(SimularProofOfWork_returns_rango sum256 fuel blockData dificultad _ h).1, h3, rfl⟩

set_option maxRecDepth 8000 in
theorem SimularProofOfWork_digest_correcto_witness :
    SimularProofOfWork sumaDeMuestra 10 "ab" 2
      = .returns ("0000000000000000000000000000000000000000000000000000000000000000", 3) ∧
    ((0 : Int) ≤ 2 ∧ ("0000000000000000000000000000000000000000000000000000000000000000" : String).data.take
        (2 : Int).toNat = List.replicate (2 : Int).toNat '0' ∧
      "0000000000000000000000000000000000000000000000000000000000000000"
        = formatHex (sumaDeMuestra ("ab" ++ formatInt 3))) :=
  ⟨by decide,
    SimularProofOfWork_digest_correcto sumaDeMuestra 10 "ab" 2
      "0000000000000000000000000000000000000000000000000000000000000000" 3 (by decide)⟩

/-- C4, as stated, fails on the 64-bit counter: with the sample hash that yields zeros
exactly for texts that start with `'-'`, the empty payload and difficulty 1, no nonce from
0 to `2^63 - 1` qualifies, the counter wraps, and the call returns the negative nonce
`-2^63`. -/
theorem SimularProofOfWork_nonce_negativo :
    SimularProofOfWork sumaDeSigno 9223372036854775809 "" 1
      = .returns ("0000000000000000000000000000000000000000000000000000000000000000", -9223372036854775808) ∧
    ¬ (0 : Int) ≤ -9223372036854775808 := by
  refine ⟨?_, by decide⟩
  rw [SimularProofOfWork_eq sumaDeSigno _ "" 1 (by decide) (by decide)]
  have hw : wrapInt ((0 : Int) + ((9223372036854775808 : Nat) : Int))
      = -9223372036854775808 := by decide
  have h := buscarNonce_found sumaDeSigno "" ⟨List.replicate (1 : Int).toNat '0'⟩
    9223372036854775808 9223372036854775809 0 (by norm_num)
    (fun i hi => by
      have hi' : (i : Int) < 9223372036854775808 := by exact_mod_cast hi
      rw [zero_add, wrapInt_of_range (by norm_num; omega) (by norm_num; omega),
        formatHex_sumaDeSigno, datosDelBloque, String.empty_append,
        if_neg (formatInt_sin_signo _ (by omega))]
      decide)
    (by
      rw [hw, formatHex_sumaDeSigno, datosDelBloque, String.empty_append,
        if_pos (formatInt_con_signo _ (by decide))]
      decide)
  rw [hw, formatHex_sumaDeSigno, datosDelBloque, String.empty_append,
    if_pos (formatInt_con_signo _ (by decide))] at h
  exact h

/-- C4, amended: the nonce returned by `SimularProofOfWork` is a 64-bit value that
qualifies and is the first to do so in the order in which the counter visits the nonces,
`0, 1, ..., 2^63 - 1, -2^63, ..., -1`: when it is `>= 0` no `m` with `0 <= m < nonce`
qualifies, and it is negative only when no `m` with `0 <= m < 2^63` qualifies, and then
no `m` with `-2^63 <= m < nonce` qualifies either. -/
theorem SimularProofOfWork_primer_nonce (sum256 : String → Bytes32) (fuel : Nat)
    (blockData : String) (dificultad : Int) (digest : String) (nonce : Int)
    (h : SimularProofOfWork sum256 fuel blockData dificultad = .returns (digest, nonce)) :
    -2 ^ 63 ≤ nonce ∧ nonce < 2 ^ 63 ∧ Califica sum256 blockData dificultad nonce ∧
      (0 ≤ nonce → ∀ m : Int, 0 ≤ m → m < nonce → ¬ Califica sum256 blockData dificultad m) ∧
      (nonce < 0 →
        (∀ m : Int, 0 ≤ m → m < 2 ^ 63 → ¬ Califica sum256 blockData dificultad m) ∧
        ∀ m : Int, -2 ^ 63 ≤ m → m < nonce → ¬ Califica sum256 blockData dificultad m) := by
  obtain ⟨k, _, hk64, h1, _, hq, hno⟩ :=
    SimularProofOfWork_returns_spec sum256 fuel blockData dificultad digest nonce h
  have hk64' : (k : Int) < 18446744073709551616 := by exact_mod_cast hk64
  have hr := wrapInt_rango (k : Int)
  rw [← h1] at hr
  have hval : nonce = (k : Int) ∨ nonce = (k : Int) - 18446744073709551616 := by
    rw [h1]; unfold wrapInt; norm_num; omega
  refine ⟨hr.1, hr.2, hq, fun h0 m hm hlt hc => ?_, fun hneg => ⟨fun m hm hlt hc => ?_,
    fun m hm hlt hc => ?_⟩⟩
  · have hnk : nonce = (k : Int) := by
      rcases hval with hv | hv
      · exact hv
      · norm_num at hr; omega
    have hw : wrapInt ((m.toNat : Nat) : Int) = m := by
      rw [Int.toNat_of_nonneg hm]
      exact wrapInt_of_range (by norm_num; omega) (by norm_num at hr ⊢; omega)
    exact hno m.toNat (by omega) (by rw [hw]; exact hc)
  · have hnk : nonce = (k : Int) - 18446744073709551616 := by
      rcases hval with hv | hv
      · omega
      · exact hv
    have hw : wrapInt ((m.toNat : Nat) : Int) = m := by
      rw [Int.toNat_of_nonneg hm]
      exact wrapInt_of_range (by norm_num; omega) (by norm_num at hlt ⊢; omega)
    norm_num at hr hlt
    exact hno m.toNat (by omega) (by rw [hw]; exact hc)
  · have hnk : nonce = (k : Int) - 18446744073709551616 := by
      rcases hval with hv | hv
      · omega
      · exact hv
    norm_num at hr hm
    have hw : wrapInt (((m + 18446744073709551616).toNat : Nat) : Int) = m := by
      rw [Int.toNat_of_nonneg (by omega)]
      unfold wrapInt
      norm_num
      omega
    exact hno (m + 18446744073709551616).toNat (by omega) (by rw [hw]; exact hc)

set_option maxRecDepth 8000 in
theorem SimularProofOfWork_primer_nonce_witness :
    SimularProofOfWork sumaDeMuestra 10 "ab" 2
      = .returns ("0000000000000000000000000000000000000000000000000000000000000000", 3) ∧
    (-2 ^ 63 ≤ (3 : Int) ∧ (3 : Int) < 2 ^ 63 ∧ Califica sumaDeMuestra "ab" 2 3 ∧
      ((0 : Int) ≤ 3 → ∀ m : Int, 0 ≤ m → m < 3 → ¬ Califica sumaDeMuestra "ab" 2 m) ∧
      ((3 : Int) < 0 →
        (∀ m : Int, 0 ≤ m → m < 2 ^ 63 → ¬ Califica sumaDeMuestra "ab" 2 m) ∧
        ∀ m : Int, -2 ^ 63 ≤ m → m < 3 → ¬ Califica sumaDeMuestra "ab" 2 m)) :=
  ⟨by decide, SimularProofOfWork_primer_nonce sumaDeMuestra 10 "ab" 2
    "0000000000000000000000000000000000000000000000000000000000000000" 3 (by decide)⟩

/-- C5, as stated, fails: for the empty payload and difficulty 65 the search returns for
no hash function and no budget, because a digest has 64 characters. -/
theorem SimularProofOfWork_no_siempre_termina :
    (0 : Int) ≤ 65 ∧
    ¬ ∃ (sum256 : String → Bytes32) (fuel : Nat) (r : String × Int),
      SimularProofOfWork sum256 fuel "" 65 = .returns r := by
  refine ⟨by decide, ?_⟩
  rintro ⟨sum256, fuel, r, h⟩
  exact SimularProofOfWork_no_retorna sum256 fuel "" 65 (by decide) r h

/-- C5, amended: for `d >= 0` the search of `SimularProofOfWork` terminates and returns a
pair exactly when some 64-bit nonce `m`, `-2^63 <= m < 2^63`, passes the acceptance test;
the pair is then the same for every budget that is large enough. -/
theorem SimularProofOfWork_termina_sii (sum256 : String → Bytes32) (blockData : String)
    (dificultad : Int) (hd : 0 ≤ dificultad) :
    (∃ m : Int, -2 ^ 63 ≤ m ∧ m < 2 ^ 63 ∧ Califica sum256 blockData dificultad m) ↔
      ∃ (r : String × Int) (fuel0 : Nat), ∀ fuel, fuel0 ≤ fuel →
        SimularProofOfWork sum256 fuel blockData dificultad = .returns r := by
  classical
  constructor
  · rintro ⟨m, hlo, hhi, hq⟩
    have hd64 : dificultad ≤ 64 := by
      by_contra hc
      exact no_califica_de_65 sum256 blockData dificultad m (by omega) hq
    have hex : ∃ k : Nat, Califica sum256 blockData dificultad (wrapInt (k : Int)) := by
      refine ⟨(m % 2 ^ 64).toNat, ?_⟩
      have hw : wrapInt (((m % 2 ^ 64).toNat : Nat) : Int) = m := by
        rw [Int.toNat_of_nonneg (Int.emod_nonneg _ (by norm_num))]
        unfold wrapInt
        norm_num at hlo hhi ⊢
        omega
      rw [hw]; exact hq
    refine ⟨(formatHex (sum256 (datosDelBloque blockData (wrapInt (Nat.find hex : Int)))),
      wrapInt (Nat.find hex : Int)), Nat.find hex + 1, fun fuel hf => ?_⟩
    rw [SimularProofOfWork_eq sum256 fuel blockData dificultad hd (by norm_num; omega)]
    have h := buscarNonce_found sum256 blockData ⟨List.replicate dificultad.toNat '0'⟩
      (Nat.find hex) fuel 0 (by omega)
      (fun i hi => by
        have := Nat.find_min hex hi
        rw [← califica_iff] at this
        rw [zero_add]
        simpa using this)
      (by rw [zero_add, califica_iff]; exact Nat.find_spec hex)
    rw [zero_add] at h
    exact h
  · rintro ⟨⟨digest, nonce⟩, fuel0, h⟩
    obtain ⟨k, _, _, h1, _, hq, _⟩ := SimularProofOfWork_returns_spec sum256 fuel0 blockData
      dificultad digest nonce (h fuel0 le_rfl)
    have hr := wrapInt_rango (k : Int)
    rw [← h1] at hr
    exact ⟨nonce, hr.1, hr.2, hq⟩

theorem SimularProofOfWork_termina_sii_witness :
    (0 : Int) ≤ 2 ∧
    ((∃ m : Int, -2 ^ 63 ≤ m ∧ m < 2 ^ 63 ∧ Califica sumaDeMuestra "ab" 2 m) ↔
      ∃ (r : String × Int) (fuel0 : Nat), ∀ fuel, fuel0 ≤ fuel →
        SimularProofOfWork sumaDeMuestra fuel "ab" 2 = .returns r) :=
  ⟨by decide, SimularProofOfWork_termina_sii sumaDeMuestra "ab" 2 (by decide)⟩

/-- C6: `SimularProofOfWork(payload, 0)` returns after testing the first candidate only
(a budget of one test is enough): the nonce is 0 and the digest is the hexadecimal hash
of `payload` followed by `"0"`. -/
theorem SimularProofOfWork_dificultad_cero (sum256 : String → Bytes32) (fuel : Nat)
    (blockData : String) :
    SimularProofOfWork sum256 (fuel + 1) blockData 0
      = .returns (formatHex (sum256 (blockData ++ "0")), 0) := by
  rw [SimularProofOfWork_eq sum256 (fuel + 1) blockData 0 le_rfl (by norm_num)]
  have h := buscarNonce_found sum256 blockData ⟨List.replicate (0 : Int).toNat '0'⟩ 0
    (fuel + 1) 0 (by omega) (fun i hi => absurd hi (by omega))
    (by rw [califica_iff]; simp [Califica])
  simpa [datosDelBloque, formatInt, wrapInt_zero] using h

/-- C17: for every difficulty `d > 64` no nonce passes the acceptance test of
`SimularProofOfWork`, because the hexadecimal digest always has exactly 64 characters;
hence the call never returns, and once the target prefix has been built the search loop
is still running after any number of tested candidates. -/
theorem SimularProofOfWork_nunca_retorna (sum256 : String → Bytes32) (blockData : String)
    (dificultad : Int) (hd : 64 < dificultad) :
    (∀ m : Int, (formatHex (sum256 (datosDelBloque blockData m))).data.length = 64) ∧
    (∀ m : Int, ¬ Califica sum256 blockData dificultad m) ∧
    (∀ (fuel : Nat) (r : String × Int),
      SimularProofOfWork sum256 fuel blockData dificultad ≠ .returns r) ∧
    ∀ targetPrefix : String, stringsRepeat "0" dificultad = .returns targetPrefix →
      ∀ (fuel : Nat) (nonce : Int),
        buscarNonce sum256 blockData targetPrefix fuel nonce = .timeout := by
  refine ⟨fun _ => length_formatHex _,
    fun m => no_califica_de_65 sum256 blockData dificultad m hd,
    fun fuel r => SimularProofOfWork_no_retorna sum256 fuel blockData dificultad hd r,
    fun tp htp fuel nonce => ?_⟩
  rw [(stringsRepeat_returns dificultad tp htp).2.2]
  exact buscarNonce_timeout sum256 blockData dificultad hd fuel nonce

set_option maxRecDepth 8000 in
theorem SimularProofOfWork_nunca_retorna_witness :
    (64 : Int) < 65 ∧
    stringsRepeat "0" 65
      = .returns "00000000000000000000000000000000000000000000000000000000000000000" ∧
    SimularProofOfWork sumaDeMuestra 5 "ab" 65 = .timeout ∧
    ((∀ m : Int, (formatHex (sumaDeMuestra (datosDelBloque "ab" m))).data.length = 64) ∧
    (∀ m : Int, ¬ Califica sumaDeMuestra "ab" 65 m) ∧
    (∀ (fuel : Nat) (r : String × Int),
      SimularProofOfWork sumaDeMuestra fuel "ab" 65 ≠ .returns r) ∧
    ∀ targetPrefix : String, stringsRepeat "0" 65 = .returns targetPrefix →
      ∀ (fuel : Nat) (nonce : Int),
        buscarNonce sumaDeMuestra "ab" targetPrefix fuel nonce = .timeout) :=
  ⟨by decide, by decide, by decide,
    SimularProofOfWork_nunca_retorna sumaDeMuestra "ab" 65 (by decide)⟩

/-- C19: for every difficulty `d < 0` the call `SimularProofOfWork(payload, d)` panics in
`strings.Repeat`, also with a budget of zero tested candidates, hence before any nonce is
tested, and it returns no result. -/
theorem SimularProofOfWork_dificultad_negativa (sum256 : String → Bytes32)
    (blockData : String) (dificultad : Int) (hd : dificultad < 0) :
    (∀ fuel : Nat, SimularProofOfWork sum256 fuel blockData dificultad
        = .panics "strings: negative Repeat count") ∧
    SimularProofOfWork sum256 0 blockData dificultad
        = .panics "strings: negative Repeat count" ∧
    ∀ (fuel : Nat) (r : String × Int),
      SimularProofOfWork sum256 fuel blockData dificultad ≠ .returns r := by
  have h : ∀ fuel : Nat, SimularProofOfWork sum256 fuel blockData dificultad
      = .panics "strings: negative Repeat count" := fun fuel => by
    simp [SimularProofOfWork, stringsRepeat, hd, Outcome.bind]
  refine ⟨h, h 0, fun fuel r hr => ?_⟩
  rw [h fuel] at hr
  cases hr

theorem SimularProofOfWork_dificultad_negativa_witness :
    (-1 : Int) < 0 ∧
    ((∀ fuel : Nat, SimularProofOfWork sumaDeMuestra fuel "ab" (-1)
        = .panics "strings: negative Repeat count") ∧
    SimularProofOfWork sumaDeMuestra 0 "ab" (-1)
        = .panics "strings: negative Repeat count" ∧
    ∀ (fuel : Nat) (r : String × Int),
      SimularProofOfWork sumaDeMuestra fuel "ab" (-1) ≠ .returns r) :=
  ⟨by decide, SimularProofOfWork_dificultad_negativa sumaDeMuestra "ab" (-1) (by decide)⟩

/-! ## Counted loops and slices -/

/-- Invariant rule for a counted loop whose variable starts at `t0`. -/
theorem forLoopAux_inv {σ : Type} (body : Int → σ → Outcome σ) (P : Nat → σ → Prop) :
    ∀ (k t0 : Nat) (s : σ), P t0 s →
      (∀ t s, t0 ≤ t → t < t0 + k → P t s →
        ∃ s', body (t : Int) s = .returns s' ∧ P (t + 1) s') →
      ∃ s', forLoopAux body k (t0 : Int) s = .returns s' ∧ P (t0 + k) s' := by
  intro k
  induction k with
  | zero => intro t0 s h0 _; exact ⟨s, rfl, h0⟩
  | succ k ih =>
    intro t0 s h0 hstep
    obtain ⟨s1, hb, h1⟩ := hstep t0 s le_rfl (by omega) h0
    obtain ⟨s2, hl, h2⟩ := ih (t0 + 1) s1 h1
      (fun t s ht hlt hP => hstep t s (by omega) (by omega) hP)
    refine ⟨s2, ?_, by rwa [show t0 + (k + 1) = t0 + 1 + k by omega]⟩
    rw [forLoopAux, hb, bind_returns]
    exact_mod_cast hl

/-- Invariant rule for `for i := 0; i < n; i++` with `n >= 0`. -/
theorem forLoop_inv {σ : Type} (body : Int → σ → Outcome σ) (P : Nat → σ → Prop)
    (N : Nat) (s : σ) (h0 : P 0 s)
    (hstep : ∀ t s, t < N → P t s → ∃ s', body (t : Int) s = .returns s' ∧ P (t + 1) s') :
    ∃ s', forLoop 0 (N : Int) body s = .returns s' ∧ P N s' := by
  obtain ⟨s', h1, h2⟩ := forLoopAux_inv body P N 0 s h0
    (fun t s _ hlt hP => hstep t s (by omega) hP)
  refine ⟨s', ?_, by simpa using h2⟩
  simpa [forLoop] using h1

theorem Falla.bind {α β : Type} {x : Outcome α} (h : Falla x) (f : α → Outcome β) :
    Falla (x.bind f) := by
  rcases h with h | h <;> rw [h]
  · exact Or.inl rfl
  · exact Or.inr rfl

theorem Falla.no_returns {α : Type} {x : Outcome α} (h : Falla x) (a : α) :
    x ≠ .returns a := by
  rcases h with h | h <;> rw [h] <;> intro hc <;> cases hc

/-- Invariant rule for a counted loop whose body may fail in an allocation: the loop
either returns with the invariant or fails in an allocation. -/
theorem forLoopAux_falla {σ : Type} (body : Int → σ → Outcome σ) (P : Nat → σ → Prop) :
    ∀ (k t0 : Nat) (s : σ), P t0 s →
      (∀ t s, t0 ≤ t → t < t0 + k → P t s →
        (∃ s', body (t : Int) s = .returns s' ∧ P (t + 1) s') ∨ Falla (body (t : Int) s)) →
      (∃ s', forLoopAux body k (t0 : Int) s = .returns s' ∧ P (t0 + k) s') ∨
        Falla (forLoopAux body k (t0 : Int) s) := by
  intro k
  induction k with
  | zero => intro t0 s h0 _; exact Or.inl ⟨s, rfl, h0⟩
  | succ k ih =>
    intro t0 s h0 hstep
    rcases hstep t0 s le_rfl (by omega) h0 with ⟨s1, hb, h1⟩ | hf
    · have hrec := ih (t0 + 1) s1 h1 (fun t s ht hlt hP => hstep t s (by omega) (by omega) hP)
      rw [forLoopAux, hb, bind_returns]
      rcases hrec with ⟨s2, hl, h2⟩ | hf
      · exact Or.inl ⟨s2, by exact_mod_cast hl, by rwa [show t0 + (k + 1) = t0 + 1 + k by omega]⟩
      · exact Or.inr (by exact_mod_cast hf)
    · rw [forLoopAux]
      exact Or.inr (hf.bind _)

theorem forLoop_falla {σ : Type} (body : Int → σ → Outcome σ) (P : Nat → σ → Prop)
    (N : Nat) (s : σ) (h0 : P 0 s)
    (hstep : ∀ t s, t < N → P t s →
      (∃ s', body (t : Int) s = .returns s' ∧ P (t + 1) s') ∨ Falla (body (t : Int) s)) :
    (∃ s', forLoop 0 (N : Int) body s = .returns s' ∧ P N s') ∨
      Falla (forLoop 0 (N : Int) body s) := by
  have h := forLoopAux_falla body P N 0 s h0 (fun t s _ hlt hP => hstep t s (by omega) hP)
  simpa [forLoop] using h

theorem leer_some {α : Type} (l : List α) (i : Nat) (v : α) (h : l[i]? = some v) :
    leer l (i : Int) = .returns v := by
  simp [leer, h]

theorem escribir_ok {α : Type} (l : List α) (i : Nat) (v : α) (h : i < l.length) :
    escribir l (i : Int) v = .returns (l.set i v) := by
  simp [escribir, h]

theorem leer2_some (m : List (List Int)) (i j : Nat) (row : List Int) (v : Int)
    (hrow : m[i]? = some row) (hv : row[j]? = some v) : leer2 m (i : Int) (j : Int) = .returns v := by
  rw [leer2, leer_some m i row hrow, bind_returns, leer_some row j v hv]

theorem escribir2_ok (m : List (List Int)) (i j : Nat) (row : List Int) (v : Int)
    (hrow : m[i]? = some row) (hj : j < row.length) :
    escribir2 m (i : Int) (j : Int) v = .returns (m.set i (row.set j v)) := by
  have hi : i < m.length := by
    rcases Nat.lt_or_ge i m.length with h | h
    · exact h
    · rw [List.getElem?_eq_none h] at hrow; cases hrow
  rw [escribir2, leer_some m i row hrow, bind_returns, escribir_ok row j v hj, bind_returns,
    escribir_ok m i _ hi]

/-- An allocation that passes both checks of `makeSlice`. -/
theorem makeSlice_ok {α : Type} (e : Int) (N : Nat) (z : α) (heap : Int)
    (h1 : e * (N : Int) ≤ maxAlloc) (h2 : heap + e * (N : Int) ≤ maxAlloc) :
    makeSlice e (N : Int) z heap = .returns (List.replicate N z, heap + e * (N : Int)) := by
  have hn : ¬ ((N : Int) < 0 ∨ maxAlloc < e * (N : Int)) := by
    rintro (h | h) <;> omega
  rw [makeSlice, if_neg hn, if_neg (not_lt.mpr h2), Int.toNat_ofNat]

/-- An allocation that passes the size check of `makeslice` and does not fit in the
heap. -/
theorem makeSlice_fatal {α : Type} (e : Int) (N : Nat) (z : α) (heap : Int)
    (h1 : e * (N : Int) ≤ maxAlloc) (h2 : maxAlloc < heap + e * (N : Int)) :
    makeSlice e (N : Int) z heap = .fatal "runtime: out of memory" := by
  have hn : ¬ ((N : Int) < 0 ∨ maxAlloc < e * (N : Int)) := by
    rintro (h | h) <;> omega
  rw [makeSlice, if_neg hn, if_pos h2]

theorem makeSlice_panics {α : Type} (e n : Int) (z : α) (heap : Int)
    (h : n < 0 ∨ maxAlloc < e * n) :
    makeSlice e n z heap = .panics "runtime error: makeslice: len out of range" := by
  rw [makeSlice, if_pos h]

theorem Intn_diez (st : Nat → Nat) (d : Nat) :
    RandSource.Intn ⟨st, d⟩ 10 = .returns (((st d % 10 : Nat) : Int), ⟨st, d + 1⟩) := by
  simp [RandSource.Intn]

/-! ## The first loop nest: generation of the matrices -/

theorem lt_length_of_getElem?_some {α : Type} {l : List α} {i : Nat} {v : α}
    (h : l[i]? = some v) : i < l.length := by
  rcases Nat.lt_or_ge i l.length with h1 | h1
  · exact h1
  · rw [List.getElem?_eq_none h1] at h; cases h

theorem llenarCelda_paso (st : Nat → Nat) (d0 N ii : Nat) (A1 A2 : List (List Int))
    (M : Int) (t : Nat) (s : Matrices) (ht : t < N)
    (hinv : InvCelda st d0 N ii A1 A2 M t s) :
    ∃ s', llenarCelda (ii : Int) (t : Int) s = .returns s' ∧
      InvCelda st d0 N ii A1 A2 M (t + 1) s' := by
  obtain ⟨hM, hr, hl1, hl2, hotras, row1, row2, h1, h2, hlen1, hlen2, hcel⟩ := hinv
  have hi1 := lt_length_of_getElem?_some h1
  have hi2 := lt_length_of_getElem?_some h2
  refine ⟨{ m1 := s.m1.set ii (row1.set t ((st (d0 + 2 * t) % 10 : Nat) : Int)),
             m2 := s.m2.set ii (row2.set t ((st (d0 + 2 * t + 1) % 10 : Nat) : Int)),
             rand := ⟨st, d0 + 2 * t + 1 + 1⟩, memoria := s.memoria }, ?_, ?_⟩
  · rw [llenarCelda, hr, Intn_diez, bind_returns,
      escribir2_ok s.m1 ii t row1 _ h1 (by omega), bind_returns, Intn_diez, bind_returns,
      escribir2_ok s.m2 ii t row2 _ h2 (by omega), bind_returns]
  · refine ⟨hM, ?_, by simpa using hl1, by simpa using hl2, ?_, _, _,
      List.getElem?_set_self hi1, List.getElem?_set_self hi2, by simpa using hlen1,
      by simpa using hlen2, ?_⟩
    · show (⟨st, d0 + 2 * t + 1 + 1⟩ : RandSource) = ⟨st, d0 + 2 * (t + 1)⟩
      congr 1
    · intro i' hi'
      have := hotras i' hi'
      simp only [List.getElem?_set_ne (Ne.symm hi')]
      exact this
    · intro j hj
      by_cases hjt : j = t
      · subst hjt
        exact ⟨List.getElem?_set_self (by omega), List.getElem?_set_self (by omega)⟩
      · obtain ⟨c1, c2⟩ := hcel j (by omega)
        exact ⟨by rw [List.getElem?_set_ne (Ne.symm hjt)]; exact c1,
          by rw [List.getElem?_set_ne (Ne.symm hjt)]; exact c2⟩

/-- One row of the first loop nest when both rows fit in the heap. -/
theorem llenarFila_paso (st : Nat → Nat) (d N : Nat) (t : Nat) (s : Matrices) (ht : t < N)
    (hinv : InvFila st d N t s)
    (hmem : 48 * (N : Int) + 16 * ((t : Int) * N) + 16 * (N : Int) ≤ maxAlloc) :
    ∃ s', llenarFila (N : Int) (t : Int) s = .returns s' ∧ InvFila st d N (t + 1) s' := by
  obtain ⟨hM, hr, hl1, hl2, hfilas⟩ := hinv
  have htN : (0 : Int) ≤ (t : Int) * N := by positivity
  obtain ⟨s', hs', hM', hr', hl1', hl2', hotras, row1, row2, h1, h2, hfila⟩ :=
    forLoop_inv (llenarCelda (t : Int))
      (InvCelda st (d + 2 * (t * N)) N t (s.m1.set t (List.replicate N 0))
        (s.m2.set t (List.replicate N 0)) (s.memoria + 8 * (N : Int) + 8 * (N : Int))) N
      { m1 := s.m1.set t (List.replicate N 0), m2 := s.m2.set t (List.replicate N 0),
        rand := s.rand, memoria := s.memoria + 8 * (N : Int) + 8 * (N : Int) }
      ⟨rfl, by simpa using hr, rfl, rfl, fun _ _ => ⟨rfl, rfl⟩, _, _,
        List.getElem?_set_self (by omega), List.getElem?_set_self (by omega),
        by simp, by simp, fun j hj => absurd hj (by omega)⟩
      (fun j s hj hP => llenarCelda_paso st _ N t _ _ _ j s hj hP)
  refine ⟨s', ?_, ?_, ?_, by simpa [hl1] using hl1', by simpa [hl2] using hl2', ?_⟩
  · rw [llenarFila, makeSlice_ok 8 N 0 s.memoria (by omega) (by omega), bind_returns,
      escribir_ok _ _ _ (by omega), bind_returns,
      makeSlice_ok 8 N 0 (s.memoria + 8 * (N : Int)) (by omega) (by omega), bind_returns,
      escribir_ok _ _ _ (by omega), bind_returns]
    exact hs'
  · rw [hM', hM]; push_cast; ring
  · rw [hr']
    congr 1
    ring
  · intro i hi
    by_cases hit : i = t
    · subst hit
      exact ⟨row1, row2, h1, h2, hfila⟩
    · obtain ⟨r1, r2, g1, g2, gf⟩ := hfilas i (by omega)
      obtain ⟨o1, o2⟩ := hotras i hit
      refine ⟨r1, r2, ?_, ?_, gf⟩
      · rw [o1, List.getElem?_set_ne (Ne.symm hit)]; exact g1
      · rw [o2, List.getElem?_set_ne (Ne.symm hit)]; exact g2

/-- One row of the first loop nest when the two rows do not fit in the heap: the program
ends with "out of memory". -/
theorem llenarFila_falla (st : Nat → Nat) (d N : Nat) (t : Nat) (s : Matrices) (ht : t < N)
    (hinv : InvFila st d N t s) (h24 : 24 * (N : Int) ≤ maxAlloc)
    (hmem : maxAlloc < 48 * (N : Int) + 16 * ((t : Int) * N) + 16 * (N : Int)) :
    Falla (llenarFila (N : Int) (t : Int) s) := by
  obtain ⟨hM, hr, hl1, hl2, hfilas⟩ := hinv
  right
  by_cases h1 : maxAlloc < s.memoria + 8 * (N : Int)
  · rw [llenarFila, makeSlice_fatal 8 N 0 s.memoria (by omega) h1]
    rfl
  · rw [llenarFila, makeSlice_ok 8 N 0 s.memoria (by omega) (by omega), bind_returns,
      escribir_ok _ _ _ (by omega), bind_returns,
      makeSlice_fatal 8 N 0 (s.memoria + 8 * (N : Int)) (by omega) (by omega)]
    rfl

theorem InvFila.generadas {r : RandSource} {N : Nat} {s : Matrices}
    (h : InvFila r.stream r.drawn N N s) : Generadas r N s := by
  obtain ⟨_, hr, hl1, hl2, hfilas⟩ := h
  refine ⟨hr, hl1, hl2, fun i hi => ?_⟩
  obtain ⟨row1, row2, h1, h2, hlen1, hlen2, hcel⟩ := hfilas i hi
  refine ⟨row1, row2, h1, h2, hlen1, hlen2, fun j hj => ?_⟩
  obtain ⟨c1, c2⟩ := hcel j hj
  simp only [sorteo]
  rw [c1, c2]
  constructor <;> congr 4 <;> omega

theorem cabe_iff (N : Nat) :
    48 * (N : Int) + 16 * ((N : Int) * N) ≤ maxAlloc ↔ N ≤ 4194302 := by
  unfold maxAlloc
  constructor
  · intro h
    by_contra hc
    have hN : (4194303 : Int) ≤ N := by exact_mod_cast (by omega : 4194303 ≤ N)
    norm_num at h
    nlinarith
  · intro h
    have hN : (N : Int) ≤ 4194302 := by exact_mod_cast h
    have h0 : (0 : Int) ≤ N := by positivity
    norm_num
    nlinarith

/-- The first loop nest when the two matrices fit in the heap, which is the case exactly
for `N <= 4194302`. -/
theorem generarMatrices_spec (N : Nat) (r : RandSource) (hN : N ≤ 4194302) :
    ∃ s, generarMatrices (N : Int) r = .returns s ∧ Generadas r N s := by
  have hcabe := (cabe_iff N).2 hN
  have h0 : (0 : Int) ≤ N := by positivity
  have hNN : (0 : Int) ≤ (N : Int) * N := by positivity
  obtain ⟨s, hs, hinv⟩ :=
    forLoop_inv (llenarFila (N : Int)) (InvFila r.stream r.drawn N) N
      { m1 := List.replicate N [], m2 := List.replicate N [], rand := r,
        memoria := 0 + 24 * (N : Int) + 24 * (N : Int) }
      ⟨by push_cast; ring, by simp, by simp, by simp, fun i hi => absurd hi (by omega)⟩
      (fun t s ht hP => llenarFila_paso r.stream r.drawn N t s ht hP (by
        have ht' : (t : Int) + 1 ≤ N := by exact_mod_cast ht
        have : (t : Int) * N + N ≤ (N : Int) * N := by nlinarith
        omega))
  refine ⟨s, ?_, hinv.generadas⟩
  rw [generarMatrices, makeSlice_ok 24 N [] 0 (by omega) (by omega), bind_returns,
    makeSlice_ok 24 N [] (0 + 24 * (N : Int)) (by omega) (by omega), bind_returns]
  exact hs

/-- The first loop nest for any length `N >= 0`: it returns the generated matrices, and
then they fit in the heap, or it fails in an allocation. -/
theorem generarMatrices_casos (N : Nat) (r : RandSource) :
    (∃ s, generarMatrices (N : Int) r = .returns s ∧ Generadas r N s ∧ N ≤ 4194302) ∨
      Falla (generarMatrices (N : Int) r) := by
  by_cases hN : N ≤ 4194302
  · obtain ⟨s, hs, hg⟩ := generarMatrices_spec N r hN
    exact Or.inl ⟨s, hs, hg, hN⟩
  right
  have hno := mt (cabe_iff N).1 hN
  have h0 : (0 : Int) ≤ N := by positivity
  by_cases h24 : maxAlloc < 24 * (N : Int)
  · rw [generarMatrices, makeSlice_panics 24 (N : Int) [] 0 (Or.inr h24)]
    exact Or.inl rfl
  by_cases h48 : maxAlloc < 0 + 24 * (N : Int) + 24 * (N : Int)
  · rw [generarMatrices, makeSlice_ok 24 N [] 0 (by omega) (by omega), bind_returns,
      makeSlice_fatal 24 N [] (0 + 24 * (N : Int)) (by omega) h48]
    exact Or.inr rfl
  rw [generarMatrices, makeSlice_ok 24 N [] 0 (by omega) (by omega), bind_returns,
    makeSlice_ok 24 N [] (0 + 24 * (N : Int)) (by omega) (by omega), bind_returns]
  rcases forLoop_falla (llenarFila (N : Int))
      (fun t s => InvFila r.stream r.drawn N t s ∧ s.memoria ≤ maxAlloc) N
      { m1 := List.replicate N [], m2 := List.replicate N [], rand := r,
        memoria := 0 + 24 * (N : Int) + 24 * (N : Int) }
      ⟨⟨by push_cast; ring, by simp, by simp, by simp, fun i hi => absurd hi (by omega)⟩,
        by simpa using not_lt.mp h48⟩
      (fun t s ht hP => by
        by_cases hmem : 48 * (N : Int) + 16 * ((t : Int) * N) + 16 * (N : Int) ≤ maxAlloc
        · obtain ⟨s', hs', hinv'⟩ := llenarFila_paso r.stream r.drawn N t s ht hP.1 hmem
          refine Or.inl ⟨s', hs', hinv', ?_⟩
          rw [hinv'.1]
          push_cast
          linarith
        · exact Or.inr (llenarFila_falla r.stream r.drawn N t s ht hP.1 (by omega)
            (not_le.mp hmem))) with ⟨s', _, hinv, hle⟩ | hf
  · exfalso
    rw [hinv.1] at hle
    exact hno hle
  · exact hf

theorem generarMatrices_negativo (n : Int) (r : RandSource) (hn : n < 0) :
    generarMatrices n r = .panics "runtime error: makeslice: len out of range" := by
  rw [generarMatrices, makeSlice_panics 24 n [] 0 (Or.inl hn)]
  rfl

/-! ## The second loop nest: accumulation of the trace -/

theorem wrapInt_add_wrapInt (a b : Int) : wrapInt (wrapInt a + wrapInt b) = wrapInt (a + b) := by
  unfold wrapInt
  norm_num
  omega

theorem leer2_entrada (N : Nat) (m : List (List Int)) (hm : EsCuadrada N m) (i j : Nat)
    (hi : i < N) (hj : j < N) : leer2 m (i : Int) (j : Int) = .returns (entrada m i j) := by
  obtain ⟨row, hrow, hlen⟩ := hm.2 i hi
  have hv : row[j]? = some (row.get ⟨j, by omega⟩) := List.getElem?_eq_getElem (by omega)
  rw [leer2_some m i j row _ hrow hv]
  simp [entrada, hrow, hv]

theorem acumularProducto_spec (N : Nat) (m1 m2 : List (List Int)) (h1 : EsCuadrada N m1)
    (h2 : EsCuadrada N m2) (i : Nat) (hi : i < N) :
    forLoop 0 (N : Int) (acumularProducto m1 m2 (i : Int)) 0
      = .returns (wrapInt (∑ k in Finset.range N, entrada m1 i k * entrada m2 k i)) := by
  obtain ⟨s', hs', hP⟩ := forLoop_inv (acumularProducto m1 m2 (i : Int))
    (fun t s => s = wrapInt (∑ k in Finset.range t, entrada m1 i k * entrada m2 k i)) N 0
    (by simp [wrapInt_zero])
    (fun t s ht hP => by
      refine ⟨_, ?_, rfl⟩
      rw [acumularProducto, leer2_entrada N m1 h1 i t hi ht, bind_returns,
        leer2_entrada N m2 h2 t i ht hi, bind_returns, hP, wrapInt_add_wrapInt,
        Finset.sum_range_succ])
  rw [hs', hP]

theorem trazaDeProducto_spec (N : Nat) (m1 m2 : List (List Int)) (h1 : EsCuadrada N m1)
    (h2 : EsCuadrada N m2) :
    trazaDeProducto (N : Int) m1 m2 = .returns (wrapInt (sumaDoble N m1 m2)) := by
  obtain ⟨s', hs', hP⟩ := forLoop_inv (acumularFila (N : Int) m1 m2)
    (fun t s => s = wrapInt (∑ i in Finset.range t,
      ∑ k in Finset.range N, entrada m1 i k * entrada m2 k i)) N 0
    (by simp [wrapInt_zero])
    (fun t s ht hP => by
      refine ⟨_, ?_, rfl⟩
      rw [acumularFila, acumularProducto_spec N m1 m2 h1 h2 t ht, bind_returns, hP,
        wrapInt_add_wrapInt, Finset.sum_range_succ])
  rw [trazaDeProducto, hs', hP, sumaDoble]

theorem sumaDoble_eq_trace (N : Nat) (m1 m2 : List (List Int)) :
    sumaDoble N m1 m2 = Matrix.trace (comoMatriz N m1 * comoMatriz N m2) := by
  simp [sumaDoble, Matrix.trace, Matrix.mul_apply, comoMatriz, Finset.sum_range]

theorem Generadas.cuadradas {r : RandSource} {N : Nat} {s : Matrices} (h : Generadas r N s) :
    EsCuadrada N s.m1 ∧ EsCuadrada N s.m2 := by
  obtain ⟨_, hl1, hl2, hf⟩ := h
  refine ⟨⟨hl1, fun i hi => ?_⟩, ⟨hl2, fun i hi => ?_⟩⟩
  · obtain ⟨row1, _, h1, _, hlen1, _, _⟩ := hf i hi
    exact ⟨row1, h1, hlen1⟩
  · obtain ⟨_, row2, _, h2, _, hlen2, _⟩ := hf i hi
    exact ⟨row2, h2, hlen2⟩

theorem Generadas.entradas {r : RandSource} {N : Nat} {s : Matrices} (h : Generadas r N s)
    (i j : Nat) (hi : i < N) (hj : j < N) :
    entrada s.m1 i j = sorteo r (2 * (i * N + j)) ∧
      entrada s.m2 i j = sorteo r (2 * (i * N + j) + 1) := by
  obtain ⟨row1, row2, h1, h2, _, _, hc⟩ := h.2.2.2 i hi
  obtain ⟨c1, c2⟩ := hc j hj
  simp [entrada, h1, h2, c1, c2]

theorem sorteo_rango (r : RandSource) (k : Nat) : 0 ≤ sorteo r k ∧ sorteo r k ≤ 9 := by
  unfold sorteo
  omega

theorem Generadas.enRango {r : RandSource} {N : Nat} {s : Matrices} (h : Generadas r N s) :
    EntradasDeCeroANueve N s.m1 ∧ EntradasDeCeroANueve N s.m2 := by
  constructor
  · intro i k hi hk
    rw [(h.entradas i k hi hk).1]
    exact sorteo_rango r _
  · intro i k hi hk
    rw [(h.entradas i k hi hk).2]
    exact sorteo_rango r _

theorem producto_rango {N : Nat} {m1 m2 : List (List Int)} (h1 : EntradasDeCeroANueve N m1)
    (h2 : EntradasDeCeroANueve N m2) (i k : Nat) (hi : i < N) (hk : k < N) :
    0 ≤ entrada m1 i k * entrada m2 k i ∧ entrada m1 i k * entrada m2 k i ≤ 81 := by
  have a := h1 i k hi hk
  have b := h2 k i hk hi
  constructor <;> nlinarith

theorem sumaDoble_rango {N : Nat} {m1 m2 : List (List Int)} (h1 : EntradasDeCeroANueve N m1)
    (h2 : EntradasDeCeroANueve N m2) :
    0 ≤ sumaDoble N m1 m2 ∧ sumaDoble N m1 m2 ≤ 81 * ((N : Int) * N) := by
  have hcell : ∀ i ∈ Finset.range N, ∀ k ∈ Finset.range N,
      0 ≤ entrada m1 i k * entrada m2 k i ∧ entrada m1 i k * entrada m2 k i ≤ 81 := by
    intro i hi k hk
    rw [Finset.mem_range] at hi hk
    exact producto_rango h1 h2 i k hi hk
  constructor
  · exact Finset.sum_nonneg (fun i hi => Finset.sum_nonneg (fun k hk => (hcell i hi k hk).1))
  · calc sumaDoble N m1 m2
        ≤ ∑ _i in Finset.range N, ∑ _k in Finset.range N, (81 : Int) :=
          Finset.sum_le_sum (fun i hi => Finset.sum_le_sum (fun k hk => (hcell i hi k hk).2))
      _ = 81 * ((N : Int) * N) := by simp; ring

/-- The whole function when the matrices fit in the heap: the trace is returned without
any wrap-around. -/
theorem CalcularTraza_spec (N : Nat) (r : RandSource) (hN : N ≤ 4194302) :
    ∃ s, generarMatrices (N : Int) r = .returns s ∧ Generadas r N s ∧
      0 ≤ sumaDoble N s.m1 s.m2 ∧ sumaDoble N s.m1 s.m2 ≤ 81 * ((N : Int) * N) ∧
      CalcularTrazaDeProductoDeMatrices (N : Int) r
        = .returns (sumaDoble N s.m1 s.m2, s.rand) := by
  obtain ⟨s, hs, hg⟩ := generarMatrices_spec N r hN
  obtain ⟨h0, h81⟩ := sumaDoble_rango hg.enRango.1 hg.enRango.2
  have hN' : (N : Int) ≤ 4194302 := by exact_mod_cast hN
  refine ⟨s, hs, hg, h0, h81, ?_⟩
  rw [CalcularTrazaDeProductoDeMatrices, hs, bind_returns,
    trazaDeProducto_spec N s.m1 s.m2 hg.cuadradas.1 hg.cuadradas.2, bind_returns,
    wrapInt_of_range (by norm_num; omega) (by norm_num; nlinarith)]

theorem CalcularTraza_negativo (n : Int) (r : RandSource) (hn : n < 0) :
    CalcularTrazaDeProductoDeMatrices n r
      = .panics "runtime error: makeslice: len out of range" := by
  rw [CalcularTrazaDeProductoDeMatrices, generarMatrices_negativo n r hn]
  rfl

/-- The outcomes of the whole function: for `0 <= n <= 4194302` it returns, for every other
`n` it fails in an allocation. -/
theorem CalcularTraza_falla (n : Int) (r : RandSource) (hn : n < 0 ∨ 4194302 < n) :
    Falla (CalcularTrazaDeProductoDeMatrices n r) := by
  rcases hn with hn | hn
  · exact Or.inl (CalcularTraza_negativo n r hn)
  · obtain ⟨N, rfl⟩ : ∃ N : Nat, n = (N : Int) := ⟨n.toNat, by omega⟩
    rcases generarMatrices_casos N r with ⟨_, _, _, hN⟩ | hf
    · exfalso
      have : (N : Int) ≤ 4194302 := by exact_mod_cast hN
      omega
    · rw [CalcularTrazaDeProductoDeMatrices]
      exact hf.bind _

/-- A call that returns has `0 <= n <= 4194302`. -/
theorem CalcularTraza_returns_rango (n : Int) (r : RandSource) (v : Int × RandSource)
    (h : CalcularTrazaDeProductoDeMatrices n r = .returns v) : 0 ≤ n ∧ n ≤ 4194302 := by
  by_contra hc
  exact (CalcularTraza_falla n r (by omega)).no_returns v h

/-! ## Claims about `CalcularTrazaDeProductoDeMatrices` and `EjecucionSecuencial` -/

/-- C7: for every `n >= 0` and every state of the random source, whenever
`CalcularTrazaDeProductoDeMatrices(n)` returns, the matrices `m1`, `m2` have been generated
as `n`-by-`n` matrices and the returned value is the sum over `i` and `k` of
`m1[i][k] * m2[k][i]`, which is the trace of the matrix product `m1 * m2`.  The call
returns when the two matrices fit in the heap (`n <= 4194302`) and fails in an allocation
for every larger `n`, so the 64-bit accumulation never wraps. -/
theorem CalcularTraza_es_traza_del_producto (n : Int) (r : RandSource) (hn : 0 ≤ n) :
    (∀ (traza : Int) (r' : RandSource),
      CalcularTrazaDeProductoDeMatrices n r = .returns (traza, r') →
      ∃ s : Matrices, generarMatrices n r = .returns s ∧ Generadas r n.toNat s ∧
        r' = s.rand ∧ traza = sumaDoble n.toNat s.m1 s.m2 ∧
        traza = Matrix.trace (comoMatriz n.toNat s.m1 * comoMatriz n.toNat s.m2)) ∧
    (n ≤ 4194302 → ∃ (traza : Int) (r' : RandSource),
      CalcularTrazaDeProductoDeMatrices n r = .returns (traza, r')) ∧
    (4194302 < n → Falla (CalcularTrazaDeProductoDeMatrices n r)) := by
  obtain ⟨N, rfl⟩ : ∃ N : Nat, n = (N : Int) := ⟨n.toNat, by omega⟩
  rw [Int.toNat_ofNat]
  refine ⟨fun traza r' h => ?_, fun hle => ?_, fun hgt => CalcularTraza_falla _ r (Or.inr hgt)⟩
  · have hN : N ≤ 4194302 := by
      have := (CalcularTraza_returns_rango _ r _ h).2
      exact_mod_cast this
    obtain ⟨s, hs, hg, _, _, hc⟩ := CalcularTraza_spec N r hN
    rw [hc] at h
    cases h
    exact ⟨s, hs, hg, rfl, rfl, sumaDoble_eq_trace N s.m1 s.m2⟩
  · obtain ⟨s, _, _, _, _, hc⟩ := CalcularTraza_spec N r (by exact_mod_cast hle)
    exact ⟨_, _, hc⟩

theorem CalcularTraza_es_traza_del_producto_witness :
    (0 : Int) ≤ 2 ∧
    (CalcularTrazaDeProductoDeMatrices 2 fuenteDeMuestra).bind (fun t => .returns t.1)
      = .returns 64 ∧
    ((∀ (traza : Int) (r' : RandSource),
      CalcularTrazaDeProductoDeMatrices 2 fuenteDeMuestra = .returns (traza, r') →
      ∃ s : Matrices, generarMatrices 2 fuenteDeMuestra = .returns s ∧
        Generadas fuenteDeMuestra (2 : Int).toNat s ∧
        r' = s.rand ∧ traza = sumaDoble (2 : Int).toNat s.m1 s.m2 ∧
        traza = Matrix.trace (comoMatriz (2 : Int).toNat s.m1 * comoMatriz (2 : Int).toNat s.m2)) ∧
    ((2 : Int) ≤ 4194302 → ∃ (traza : Int) (r' : RandSource),
      CalcularTrazaDeProductoDeMatrices 2 fuenteDeMuestra = .returns (traza, r')) ∧
    ((4194302 : Int) < 2 → Falla (CalcularTrazaDeProductoDeMatrices 2 fuenteDeMuestra))) :=
  ⟨by decide, by decide, CalcularTraza_es_traza_del_producto 2 fuenteDeMuestra (by decide)⟩

theorem EjecucionSecuencial_eq (sum256 : String → Bytes32) (fuel : Nat) (r r' : RandSource)
    (n umbral traza : Int) (blockData : String) (dificultad maxPrimos : Int)
    (h : CalcularTrazaDeProductoDeMatrices n r = .returns (traza, r')) :
    EjecucionSecuencial sum256 fuel r n umbral blockData dificultad maxPrimos
      = if traza > umbral then
          (SimularProofOfWork sum256 fuel blockData dificultad).bind (fun pow =>
            .returns { ramaGanadora := "A", salida := ["Se ejecutará la rama A"],
                       trabajo := .pruebaDeTrabajo pow })
        else
          (EncontrarPrimos fuel maxPrimos).bind (fun primes =>
            .returns { ramaGanadora := "B", salida := ["Se ejecutará la rama B"],
                       trabajo := .primos primes }) := by
  rw [EjecucionSecuencial, h, bind_returns]

/-- C8, as stated, fails: with `n = -1` the call panics in `make` and returns no label
for any threshold, and with `n = 1`, all draws equal to 9 (trace 81), threshold 0 and
difficulty 65 the trace is above the threshold but the call never returns a label. -/
theorem EjecucionSecuencial_sin_etiqueta :
    (¬ ∃ (sum256 : String → Bytes32) (fuel : Nat) (umbral : Int) (e : Ejecucion),
      EjecucionSecuencial sum256 fuel fuenteDeNueves (-1) umbral "" 0 10 = .returns e) ∧
    (CalcularTrazaDeProductoDeMatrices 1 fuenteDeNueves).bind (fun t => .returns t.1)
      = .returns 81 ∧
    ¬ ∃ (sum256 : String → Bytes32) (fuel : Nat) (e : Ejecucion),
      EjecucionSecuencial sum256 fuel fuenteDeNueves 1 0 "" 65 10 = .returns e := by
  refine ⟨?_, by decide, ?_⟩
  · rintro ⟨sum256, fuel, umbral, e, h⟩
    rw [EjecucionSecuencial, CalcularTraza_negativo (-1) fuenteDeNueves (by decide)] at h
    cases h
  · rintro ⟨sum256, fuel, e, h⟩
    have hc : CalcularTrazaDeProductoDeMatrices 1 fuenteDeNueves
        = .returns (81, ⟨fun _ => 9, 2⟩) := rfl
    rw [EjecucionSecuencial_eq sum256 fuel _ _ 1 0 81 "" 65 10 hc,
      SimularProofOfWork_timeout sum256 fuel "" 65 (by decide) (by decide)] at h
    simp [Outcome.bind] at h

/-- C8, amended: for every `n`, every threshold and every state of the random source for
which `CalcularTrazaDeProductoDeMatrices(n)` returns a trace (for `n < 0` and for `n` too
large to allocate it fails in `make`, and `EjecucionSecuencial` with it): when the trace is
strictly greater than `umbral` the call is exactly a run of `SimularProofOfWork` (not of
`EncontrarPrimos`) that returns the label `"A"` once that search returns; otherwise,
equality included, it is exactly a run of `EncontrarPrimos` (not of `SimularProofOfWork`)
and the label `"B"` is returned; a returned label is `"A"` exactly when the trace is above
the threshold. -/
theorem EjecucionSecuencial_rama (sum256 : String → Bytes32) (fuel : Nat) (r r' : RandSource)
    (n umbral traza : Int) (blockData : String) (dificultad maxPrimos : Int)
    (htraza : CalcularTrazaDeProductoDeMatrices n r = .returns (traza, r')) :
    (umbral < traza →
      EjecucionSecuencial sum256 fuel r n umbral blockData dificultad maxPrimos
        = (SimularProofOfWork sum256 fuel blockData dificultad).bind (fun pow =>
            .returns { ramaGanadora := "A", salida := ["Se ejecutará la rama A"],
                       trabajo := .pruebaDeTrabajo pow })) ∧
    (traza ≤ umbral →
      EjecucionSecuencial sum256 fuel r n umbral blockData dificultad maxPrimos
        = (EncontrarPrimos fuel maxPrimos).bind (fun primes =>
            .returns { ramaGanadora := "B", salida := ["Se ejecutará la rama B"],
                       trabajo := .primos primes })) ∧
    (traza ≤ umbral → maxPrimos < 2 ^ 63 → maxPrimos ≤ fuel →
      ∃ primes, EncontrarPrimos fuel maxPrimos = .returns primes ∧
        EjecucionSecuencial sum256 fuel r n umbral blockData dificultad maxPrimos
          = .returns { ramaGanadora := "B", salida := ["Se ejecutará la rama B"],
                       trabajo := .primos primes }) ∧
    (∀ e, EjecucionSecuencial sum256 fuel r n umbral blockData dificultad maxPrimos
        = .returns e →
      (e.ramaGanadora = "A" ↔ umbral < traza) ∧ (e.ramaGanadora = "B" ↔ traza ≤ umbral)) := by
  have heq := EjecucionSecuencial_eq sum256 fuel r r' n umbral traza blockData
    dificultad maxPrimos htraza
  refine ⟨fun h => ?_, fun h => ?_, fun h hmax hfuel => ?_, fun e he => ?_⟩
  · rw [heq, if_pos h]
  · rw [heq, if_neg (not_lt.mpr h)]
  · refine ⟨_, EncontrarPrimos_eq fuel maxPrimos hmax hfuel, ?_⟩
    rw [heq, if_neg (not_lt.mpr h), EncontrarPrimos_eq fuel maxPrimos hmax hfuel, bind_returns]
  · rw [heq] at he
    by_cases h : umbral < traza
    · rw [if_pos h] at he
      cases hpow : SimularProofOfWork sum256 fuel blockData dificultad with
      | returns pow =>
        rw [hpow, bind_returns] at he
        cases he
        exact ⟨by simp [h], by simp [h, not_le.mpr h]⟩
      | panics msg => rw [hpow] at he; cases he
      | fatal msg => rw [hpow] at he; cases he
      | timeout => rw [hpow] at he; cases he
    · rw [if_neg h] at he
      cases hpr : EncontrarPrimos fuel maxPrimos with
      | returns primes =>
        rw [hpr, bind_returns] at he
        cases he
        exact ⟨by simp [h], by simp [not_lt.mp h]⟩
      | panics msg => rw [hpr] at he; cases he
      | fatal msg => rw [hpr] at he; cases he
      | timeout => rw [hpr] at he; cases he

set_option maxRecDepth 8000 in
theorem EjecucionSecuencial_rama_witness :
    CalcularTrazaDeProductoDeMatrices 2 fuenteDeMuestra = .returns (64, ⟨fun k => k, 8⟩) ∧
    EjecucionSecuencial sumaDeMuestra 10 fuenteDeMuestra 2 64 "ab" 2 10
      = .returns { ramaGanadora := "B", salida := ["Se ejecutará la rama B"],
                   trabajo := .primos [2, 3, 5, 7] } ∧
    EjecucionSecuencial sumaDeMuestra 10 fuenteDeMuestra 2 63 "ab" 2 10
      = .returns { ramaGanadora := "A", salida := ["Se ejecutará la rama A"],
                   trabajo := .pruebaDeTrabajo
                     ("0000000000000000000000000000000000000000000000000000000000000000", 3) } ∧
    (((64 : Int) < 64 →
      EjecucionSecuencial sumaDeMuestra 10 fuenteDeMuestra 2 64 "ab" 2 10
        = (SimularProofOfWork sumaDeMuestra 10 "ab" 2).bind (fun pow =>
            .returns { ramaGanadora := "A", salida := ["Se ejecutará la rama A"],
                       trabajo := .pruebaDeTrabajo pow })) ∧
    ((64 : Int) ≤ 64 →
      EjecucionSecuencial sumaDeMuestra 10 fuenteDeMuestra 2 64 "ab" 2 10
        = (EncontrarPrimos 10 10).bind (fun primes =>
            .returns { ramaGanadora := "B", salida := ["Se ejecutará la rama B"],
                       trabajo := .primos primes })) ∧
    ((64 : Int) ≤ 64 → (10 : Int) < 2 ^ 63 → (10 : Int) ≤ (10 : Nat) →
      ∃ primes, EncontrarPrimos 10 10 = .returns primes ∧
        EjecucionSecuencial sumaDeMuestra 10 fuenteDeMuestra 2 64 "ab" 2 10
          = .returns { ramaGanadora := "B", salida := ["Se ejecutará la rama B"],
                       trabajo := .primos primes }) ∧
    (∀ e, EjecucionSecuencial sumaDeMuestra 10 fuenteDeMuestra 2 64 "ab" 2 10
        = .returns e →
      (e.ramaGanadora = "A" ↔ (64 : Int) < 64) ∧ (e.ramaGanadora = "B" ↔ (64 : Int) ≤ 64))) :=
  ⟨rfl, by decide, by decide,
    EjecucionSecuencial_rama sumaDeMuestra 10 fuenteDeMuestra ⟨fun k => k, 8⟩ 2 64 64 "ab" 2 10
      rfl⟩

/-! ## Claims about edge cases and failures -/

/-- C11: `CalcularTrazaDeProductoDeMatrices(0)` returns exactly 0 whatever the state of
the random source, and leaves that state as it was: no value is drawn. -/
theorem CalcularTraza_de_cero (r : RandSource) :
    CalcularTrazaDeProductoDeMatrices 0 r = .returns (0, r) := rfl

/-- C12, as stated, fails: for `n = 2^62` the first `make` panics, as it does for a
negative length, so the call raises an error although `n >= 0`. -/
theorem CalcularTraza_falla_en_make :
    (0 : Int) ≤ 4611686018427387904 ∧
    CalcularTrazaDeProductoDeMatrices 4611686018427387904 fuenteDeMuestra
      = .panics "runtime error: makeslice: len out of range" := by
  refine ⟨by decide, ?_⟩
  rw [CalcularTrazaDeProductoDeMatrices, generarMatrices,
    makeSlice_panics 24 4611686018427387904 [] 0 (Or.inr (by decide))]
  rfl

/-- C12, amended: for every `n >= 0` no index access of the two loop nests is out of
bounds, and the call fails only in an allocation.  When the two matrices fit in the heap
(`n <= 4194302`) both come out with `n` rows of length `n`, every read `m1[i][k]` and
`m2[k][i]` with `i, k < n` is inside the bounds and the call returns a value; for every
larger `n` it ends in the panic of `make` or in the fatal error "out of memory"; the
only panic it can raise is the one of `make`. -/
theorem CalcularTraza_sin_error (n : Int) (r : RandSource) (hn : 0 ≤ n) :
    (n ≤ 4194302 → ∃ (s : Matrices) (traza : Int),
      generarMatrices n r = .returns s ∧
      EsCuadrada n.toNat s.m1 ∧ EsCuadrada n.toNat s.m2 ∧
      (∀ i k : Nat, i < n.toNat → k < n.toNat →
        leer2 s.m1 (i : Int) (k : Int) = .returns (entrada s.m1 i k) ∧
        leer2 s.m2 (k : Int) (i : Int) = .returns (entrada s.m2 k i)) ∧
      CalcularTrazaDeProductoDeMatrices n r = .returns (traza, s.rand)) ∧
    (4194302 < n → Falla (CalcularTrazaDeProductoDeMatrices n r)) ∧
    (∀ msg, CalcularTrazaDeProductoDeMatrices n r = .panics msg →
      msg = "runtime error: makeslice: len out of range") := by
  obtain ⟨N, rfl⟩ : ∃ N : Nat, n = (N : Int) := ⟨n.toNat, by omega⟩
  rw [Int.toNat_ofNat]
  have hcaso : ∀ hle : (N : Int) ≤ 4194302, ∃ (s : Matrices) (traza : Int),
      generarMatrices (N : Int) r = .returns s ∧
      EsCuadrada N s.m1 ∧ EsCuadrada N s.m2 ∧
      (∀ i k : Nat, i < N → k < N →
        leer2 s.m1 (i : Int) (k : Int) = .returns (entrada s.m1 i k) ∧
        leer2 s.m2 (k : Int) (i : Int) = .returns (entrada s.m2 k i)) ∧
      CalcularTrazaDeProductoDeMatrices (N : Int) r = .returns (traza, s.rand) := by
    intro hle
    obtain ⟨s, hs, hg, _, _, hc⟩ := CalcularTraza_spec N r (by exact_mod_cast hle)
    exact ⟨s, _, hs, hg.cuadradas.1, hg.cuadradas.2,
      fun i k hi hk => ⟨leer2_entrada N s.m1 hg.cuadradas.1 i k hi hk,
        leer2_entrada N s.m2 hg.cuadradas.2 k i hk hi⟩, hc⟩
  refine ⟨hcaso, fun hgt => CalcularTraza_falla _ r (Or.inr hgt), fun msg h => ?_⟩
  by_cases hle : (N : Int) ≤ 4194302
  · obtain ⟨s, traza, _, _, _, _, hc⟩ := hcaso hle
    rw [hc] at h
    cases h
  · rcases CalcularTraza_falla _ r (Or.inr (not_le.mp hle)) with hf | hf
    · rw [hf] at h
      cases h
      rfl
    · rw [hf] at h
      cases h

theorem CalcularTraza_sin_error_witness :
    (0 : Int) ≤ 2 ∧
    (((2 : Int) ≤ 4194302 → ∃ (s : Matrices) (traza : Int),
      generarMatrices 2 fuenteDeMuestra = .returns s ∧
      EsCuadrada (2 : Int).toNat s.m1 ∧ EsCuadrada (2 : Int).toNat s.m2 ∧
      (∀ i k : Nat, i < (2 : Int).toNat → k < (2 : Int).toNat →
        leer2 s.m1 (i : Int) (k : Int) = .returns (entrada s.m1 i k) ∧
        leer2 s.m2 (k : Int) (i : Int) = .returns (entrada s.m2 k i)) ∧
      CalcularTrazaDeProductoDeMatrices 2 fuenteDeMuestra = .returns (traza, s.rand)) ∧
    ((4194302 : Int) < 2 → Falla (CalcularTrazaDeProductoDeMatrices 2 fuenteDeMuestra)) ∧
    (∀ msg, CalcularTrazaDeProductoDeMatrices 2 fuenteDeMuestra = .panics msg →
      msg = "runtime error: makeslice: len out of range")) :=
  ⟨by decide, CalcularTraza_sin_error 2 fuenteDeMuestra (by decide)⟩

/-- C18: for every `n < 0` the call `CalcularTrazaDeProductoDeMatrices(n)` panics in the
first `make` instead of returning a trace, and `EjecucionSecuencial`, which calls it
without any check of `n`, panics in the same way for all its other arguments: no label,
no notice and no workload. -/
theorem negativo_falla_en_make (n : Int) (hn : n < 0) :
    (∀ r : RandSource, CalcularTrazaDeProductoDeMatrices n r
      = .panics "runtime error: makeslice: len out of range") ∧
    ∀ (sum256 : String → Bytes32) (fuel : Nat) (r : RandSource) (umbral : Int)
      (blockData : String) (dificultad maxPrimos : Int),
      EjecucionSecuencial sum256 fuel r n umbral blockData dificultad maxPrimos
        = .panics "runtime error: makeslice: len out of range" := by
  refine ⟨fun r => CalcularTraza_negativo n r hn, fun sum256 fuel r umbral bd d mp => ?_⟩
  rw [EjecucionSecuencial, CalcularTraza_negativo n r hn]
  rfl

theorem negativo_falla_en_make_witness :
    (-1 : Int) < 0 ∧
    ((∀ r : RandSource, CalcularTrazaDeProductoDeMatrices (-1) r
      = .panics "runtime error: makeslice: len out of range") ∧
    ∀ (sum256 : String → Bytes32) (fuel : Nat) (r : RandSource) (umbral : Int)
      (blockData : String) (dificultad maxPrimos : Int),
      EjecucionSecuencial sum256 fuel r (-1) umbral blockData dificultad maxPrimos
        = .panics "runtime error: makeslice: len out of range") :=
  ⟨by decide, negativo_falla_en_make (-1) (by decide)⟩

/-! ## Claims about the size of the trace -/

/-- The trace is positive exactly when some product of the double sum is not zero. -/
theorem sumaDoble_pos_iff {r : RandSource} {N : Nat} {s : Matrices} (h : Generadas r N s) :
    0 < sumaDoble N s.m1 s.m2 ↔
      ∃ i k, i < N ∧ k < N ∧ sorteo r (2 * (i * N + k)) ≠ 0 ∧
        sorteo r (2 * (k * N + i) + 1) ≠ 0 := by
  have hnn : ∀ i ∈ Finset.range N, ∀ k ∈ Finset.range N,
      0 ≤ entrada s.m1 i k * entrada s.m2 k i := by
    intro i hi k hk
    rw [Finset.mem_range] at hi hk
    rw [(h.entradas i k hi hk).1, (h.entradas k i hk hi).2]
    exact mul_nonneg (sorteo_rango r _).1 (sorteo_rango r _).1
  have hz : sumaDoble N s.m1 s.m2 = 0 ↔
      ∀ i ∈ Finset.range N, ∀ k ∈ Finset.range N,
        entrada s.m1 i k * entrada s.m2 k i = 0 := by
    rw [sumaDoble, Finset.sum_eq_zero_iff_of_nonneg
      (fun i hi => Finset.sum_nonneg (hnn i hi))]
    exact forall₂_congr (fun i hi => Finset.sum_eq_zero_iff_of_nonneg (hnn i hi))
  have h0 := (sumaDoble_rango h.enRango.1 h.enRango.2).1
  constructor
  · intro hpos
    by_contra hne
    have : sumaDoble N s.m1 s.m2 = 0 := by
      rw [hz]
      intro i hi k hk
      rw [Finset.mem_range] at hi hk
      rw [(h.entradas i k hi hk).1, (h.entradas k i hk hi).2]
      by_contra hprod
      exact hne ⟨i, k, hi, hk, left_ne_zero_of_mul hprod, right_ne_zero_of_mul hprod⟩
    omega
  · rintro ⟨i, k, hi, hk, h1, h2⟩
    have hne : sumaDoble N s.m1 s.m2 ≠ 0 := by
      intro h0'
      have := hz.1 h0' i (Finset.mem_range.2 hi) k (Finset.mem_range.2 hk)
      rw [(h.entradas i k hi hk).1, (h.entradas k i hk hi).2] at this
      exact (mul_ne_zero h1 h2) this
    omega

/-- C13: for `n = 3` and threshold 1000000 `EjecucionSecuencial` returns the label `"B"`
for every state of the random source and every `blockData`, `dificultad` and 64-bit
`maxPrimos`: the trace is at most 729. -/
theorem EjecucionSecuencial_tres_umbral_grande (sum256 : String → Bytes32) (fuel : Nat)
    (r : RandSource) (blockData : String) (dificultad maxPrimos : Int)
    (hmax : maxPrimos < 2 ^ 63) (hfuel : maxPrimos ≤ fuel) :
    ∃ (traza : Int) (r' : RandSource) (primes : List Int),
      CalcularTrazaDeProductoDeMatrices 3 r = .returns (traza, r') ∧
      0 ≤ traza ∧ traza ≤ 729 ∧
      EncontrarPrimos fuel maxPrimos = .returns primes ∧
      EjecucionSecuencial sum256 fuel r 3 1000000 blockData dificultad maxPrimos
        = .returns { ramaGanadora := "B", salida := ["Se ejecutará la rama B"],
                     trabajo := .primos primes } := by
  obtain ⟨s, _, _, h0, h81, hc⟩ := CalcularTraza_spec 3 r (by norm_num)
  have hc' : CalcularTrazaDeProductoDeMatrices 3 r
      = .returns (sumaDoble 3 s.m1 s.m2, s.rand) := hc
  have h729 : sumaDoble 3 s.m1 s.m2 ≤ 729 := by norm_num at h81; exact h81
  refine ⟨_, _, _, hc', h0, h729, EncontrarPrimos_eq fuel maxPrimos hmax hfuel, ?_⟩
  rw [EjecucionSecuencial_eq sum256 fuel r s.rand 3 1000000 _ blockData dificultad maxPrimos hc',
    if_neg (by omega), EncontrarPrimos_eq fuel maxPrimos hmax hfuel, bind_returns]

set_option maxRecDepth 8000 in
theorem EjecucionSecuencial_tres_umbral_grande_witness :
    (10 : Int) < 2 ^ 63 ∧ (10 : Int) ≤ (10 : Nat) ∧
    EjecucionSecuencial sumaDeMuestra 10 fuenteDeNueves 3 1000000 "ab" 2 10
      = .returns { ramaGanadora := "B", salida := ["Se ejecutará la rama B"],
                   trabajo := .primos [2, 3, 5, 7] } ∧
    ∃ (traza : Int) (r' : RandSource) (primes : List Int),
      CalcularTrazaDeProductoDeMatrices 3 fuenteDeNueves = .returns (traza, r') ∧
      0 ≤ traza ∧ traza ≤ 729 ∧
      EncontrarPrimos 10 10 = .returns primes ∧
      EjecucionSecuencial sumaDeMuestra 10 fuenteDeNueves 3 1000000 "ab" 2 10
        = .returns { ramaGanadora := "B", salida := ["Se ejecutará la rama B"],
                     trabajo := .primos primes } :=
  ⟨by decide, by decide, by decide,
    EjecucionSecuencial_tres_umbral_grande sumaDeMuestra 10 fuenteDeNueves "ab" 2 10
      (by decide) (by decide)⟩

set_option maxRecDepth 8000 in
/-- C14, as stated, fails: when the random source draws only zeros the trace for `n = 3`
is 0, which is not above the threshold 0, and `EjecucionSecuencial` takes branch `"B"`. -/
theorem EjecucionSecuencial_tres_umbral_cero_rama_B :
    (CalcularTrazaDeProductoDeMatrices 3 fuenteDeCeros).bind (fun t => .returns t.1)
      = .returns 0 ∧
    EjecucionSecuencial sumaDeMuestra 10 fuenteDeCeros 3 0 "ab" 2 10
      = .returns { ramaGanadora := "B", salida := ["Se ejecutará la rama B"],
                   trabajo := .primos [2, 3, 5, 7] } :=
  ⟨by decide, by decide⟩

/-- C14, amended: for `n = 3` and threshold 0 the trace is never negative and
`EjecucionSecuencial` takes branch `"A"` exactly when the trace is positive, that is when
some cell `m1[i][k]` and the cell `m2[k][i]` are both drawn non-zero; when the trace is 0
it takes branch `"B"`. -/
theorem EjecucionSecuencial_tres_umbral_cero (sum256 : String → Bytes32) (fuel : Nat)
    (r : RandSource) (blockData : String) (dificultad maxPrimos : Int) :
    ∃ (traza : Int) (r' : RandSource),
      CalcularTrazaDeProductoDeMatrices 3 r = .returns (traza, r') ∧ 0 ≤ traza ∧
      (0 < traza ↔ ∃ i k, i < 3 ∧ k < 3 ∧ sorteo r (2 * (i * 3 + k)) ≠ 0 ∧
        sorteo r (2 * (k * 3 + i) + 1) ≠ 0) ∧
      (0 < traza →
        EjecucionSecuencial sum256 fuel r 3 0 blockData dificultad maxPrimos
          = (SimularProofOfWork sum256 fuel blockData dificultad).bind (fun pow =>
              .returns { ramaGanadora := "A", salida := ["Se ejecutará la rama A"],
                         trabajo := .pruebaDeTrabajo pow })) ∧
      (traza = 0 →
        EjecucionSecuencial sum256 fuel r 3 0 blockData dificultad maxPrimos
          = (EncontrarPrimos fuel maxPrimos).bind (fun primes =>
              .returns { ramaGanadora := "B", salida := ["Se ejecutará la rama B"],
                         trabajo := .primos primes })) := by
  obtain ⟨s, _, hg, h0, _, hc⟩ := CalcularTraza_spec 3 r (by norm_num)
  have hc' : CalcularTrazaDeProductoDeMatrices 3 r
      = .returns (sumaDoble 3 s.m1 s.m2, s.rand) := hc
  have heq := EjecucionSecuencial_eq sum256 fuel r s.rand 3 0 _ blockData dificultad
    maxPrimos hc'
  refine ⟨_, _, hc', h0, sumaDoble_pos_iff hg, fun h => ?_, fun h => ?_⟩
  · rw [heq, if_pos h]
  · rw [heq, if_neg (by omega)]

theorem sumaVerificada_ok (a b : Int) (hlo : -2 ^ 63 ≤ a + b) (hhi : a + b < 2 ^ 63) :
    sumaVerificada a b = .returns (a + b) := by
  rw [sumaVerificada, if_pos ⟨hlo, hhi⟩]

theorem productoVerificado_ok (a b : Int) (hlo : -2 ^ 63 ≤ a * b) (hhi : a * b < 2 ^ 63) :
    productoVerificado a b = .returns (a * b) := by
  rw [productoVerificado, if_pos ⟨hlo, hhi⟩]

/-- One row of the accumulation with overflow detection: every partial sum is at most
`81 * N`. -/
theorem acumularProductoVerificado_spec {N : Nat} {m1 m2 : List (List Int)}
    (hc1 : EsCuadrada N m1) (hc2 : EsCuadrada N m2) (h1 : EntradasDeCeroANueve N m1)
    (h2 : EntradasDeCeroANueve N m2) (hN : N ≤ 337444499) (i : Nat) (hi : i < N) :
    forLoop 0 (N : Int) (acumularProductoVerificado m1 m2 (i : Int)) 0
      = .returns (∑ k in Finset.range N, entrada m1 i k * entrada m2 k i) ∧
    0 ≤ ∑ k in Finset.range N, entrada m1 i k * entrada m2 k i ∧
    ∑ k in Finset.range N, entrada m1 i k * entrada m2 k i ≤ 81 * (N : Int) := by
  obtain ⟨s', hs', hP, hlo, hhi⟩ := forLoop_inv (acumularProductoVerificado m1 m2 (i : Int))
    (fun t v => v = ∑ k in Finset.range t, entrada m1 i k * entrada m2 k i ∧
      0 ≤ v ∧ v ≤ 81 * (t : Int)) N 0
    (by simp)
    (fun t v ht hP => by
      obtain ⟨hv, hlo, hhi⟩ := hP
      obtain ⟨p0, p81⟩ := producto_rango h1 h2 i t hi ht
      have hN' : (N : Int) ≤ 337444499 := by exact_mod_cast hN
      have ht' : (t : Int) < N := by exact_mod_cast ht
      refine ⟨v + entrada m1 i t * entrada m2 t i, ?_, ?_, by omega, by push_cast; omega⟩
      · rw [acumularProductoVerificado, leer2_entrada N m1 hc1 i t hi ht,
          bind_returns, leer2_entrada N m2 hc2 t i ht hi, bind_returns,
          productoVerificado_ok _ _ (by norm_num; omega) (by norm_num; omega), bind_returns,
          sumaVerificada_ok _ _ (by norm_num; omega) (by norm_num; omega)]
      · rw [Finset.sum_range_succ, hv])
  rw [hs', hP]
  exact ⟨rfl, hP ▸ hlo, hP ▸ hhi⟩

/-- Below the overflow bound no step of the accumulation overflows. -/
theorem trazaVerificada_spec {N : Nat} {m1 m2 : List (List Int)}
    (hc1 : EsCuadrada N m1) (hc2 : EsCuadrada N m2) (h1 : EntradasDeCeroANueve N m1)
    (h2 : EntradasDeCeroANueve N m2) (hN : N ≤ 337444499) :
    trazaVerificada (N : Int) m1 m2 = .returns (sumaDoble N m1 m2) := by
  have hN' : (N : Int) ≤ 337444499 := by exact_mod_cast hN
  obtain ⟨s', hs', hP, _, _⟩ := forLoop_inv (acumularFilaVerificada (N : Int) m1 m2)
    (fun t v => v = ∑ i in Finset.range t,
        ∑ k in Finset.range N, entrada m1 i k * entrada m2 k i ∧
      0 ≤ v ∧ v ≤ 81 * ((t : Int) * N)) N 0
    (by simp)
    (fun t v ht hP => by
      obtain ⟨hv, hlo, hhi⟩ := hP
      obtain ⟨hrow, r0, r81⟩ := acumularProductoVerificado_spec hc1 hc2 h1 h2 hN t ht
      have ht' : (t : Int) < N := by exact_mod_cast ht
      have hbound : 81 * (((t : Int) + 1) * N) < 2 ^ 63 := by norm_num; nlinarith
      have hstep : v + ∑ k in Finset.range N, entrada m1 t k * entrada m2 k t
          ≤ 81 * (((t : Int) + 1) * N) := by nlinarith
      refine ⟨v + ∑ k in Finset.range N, entrada m1 t k * entrada m2 k t, ?_, ?_,
        by omega, by push_cast; exact hstep⟩
      · rw [acumularFilaVerificada, hrow, bind_returns,
          sumaVerificada_ok _ _ (by norm_num; omega) (lt_of_le_of_lt hstep hbound)]
      · rw [Finset.sum_range_succ, hv])
  rw [trazaVerificada, hs', hP, sumaDoble]

/-- C16: for every `n >= 0` and every random source, whose draws lie in `[0, 9]`, a value
returned by `CalcularTrazaDeProductoDeMatrices(n)` satisfies `0 <= trace <= 81 * n * n`
(the call returns when the matrices fit in the heap, `n <= 4194302`).  For every
`n <= 337444499`, hence for every `n <= 300000000`, `81 * n * n` is below `2^63` and the
accumulation over any two `n`-by-`n` matrices with entries in `[0, 9]` never overflows:
the loop nest with overflow detection returns, and it returns the same value as the
wrapping loop nest of the program, the sum of the products. -/
theorem CalcularTraza_cotas (n : Int) (r : RandSource) (hn : 0 ≤ n) :
    (∀ (traza : Int) (r' : RandSource),
      CalcularTrazaDeProductoDeMatrices n r = .returns (traza, r') →
      0 ≤ traza ∧ traza ≤ 81 * n * n) ∧
    (n ≤ 4194302 → ∃ (traza : Int) (r' : RandSource),
      CalcularTrazaDeProductoDeMatrices n r = .returns (traza, r')) ∧
    (n ≤ 337444499 → 81 * n * n < 2 ^ 63 ∧
      ∀ m1 m2 : List (List Int), EsCuadrada n.toNat m1 → EsCuadrada n.toNat m2 →
        EntradasDeCeroANueve n.toNat m1 → EntradasDeCeroANueve n.toNat m2 →
        trazaVerificada n m1 m2 = .returns (sumaDoble n.toNat m1 m2) ∧
        trazaDeProducto n m1 m2 = .returns (sumaDoble n.toNat m1 m2) ∧
        0 ≤ sumaDoble n.toNat m1 m2 ∧ sumaDoble n.toNat m1 m2 ≤ 81 * n * n) := by
  obtain ⟨N, rfl⟩ : ∃ N : Nat, n = (N : Int) := ⟨n.toNat, by omega⟩
  rw [Int.toNat_ofNat]
  refine ⟨fun traza r' h => ?_, fun hle => ?_, fun hle => ⟨by norm_num; nlinarith,
    fun m1 m2 hc1 hc2 h1 h2 => ?_⟩⟩
  · have hN : N ≤ 4194302 := by
      have := (CalcularTraza_returns_rango _ r _ h).2
      exact_mod_cast this
    obtain ⟨s, _, _, h0, h81, hc⟩ := CalcularTraza_spec N r hN
    rw [hc] at h
    cases h
    exact ⟨h0, by rw [mul_assoc]; exact h81⟩
  · obtain ⟨s, _, _, _, _, hc⟩ := CalcularTraza_spec N r (by exact_mod_cast hle)
    exact ⟨_, _, hc⟩
  · obtain ⟨h0, h81⟩ := sumaDoble_rango h1 h2
    have hN : N ≤ 337444499 := by exact_mod_cast hle
    refine ⟨trazaVerificada_spec hc1 hc2 h1 h2 hN, ?_, h0, by rw [mul_assoc]; exact h81⟩
    rw [trazaDeProducto_spec N m1 m2 hc1 hc2,
      wrapInt_of_range (by norm_num; omega) (by norm_num; nlinarith)]

theorem CalcularTraza_cotas_witness :
    (0 : Int) ≤ 2 ∧
    (CalcularTrazaDeProductoDeMatrices 2 fuenteDeMuestra).bind (fun t => .returns t.1)
      = .returns 64 ∧
    trazaVerificada 2 [[0, 2], [4, 6]] [[1, 3], [5, 7]] = .returns 64 ∧
    ((∀ (traza : Int) (r' : RandSource),
      CalcularTrazaDeProductoDeMatrices 2 fuenteDeMuestra = .returns (traza, r') →
      0 ≤ traza ∧ traza ≤ 81 * 2 * 2) ∧
    ((2 : Int) ≤ 4194302 → ∃ (traza : Int) (r' : RandSource),
      CalcularTrazaDeProductoDeMatrices 2 fuenteDeMuestra = .returns (traza, r')) ∧
    ((2 : Int) ≤ 337444499 → (81 : Int) * 2 * 2 < 2 ^ 63 ∧
      ∀ m1 m2 : List (List Int), EsCuadrada (2 : Int).toNat m1 → EsCuadrada (2 : Int).toNat m2 →
        EntradasDeCeroANueve (2 : Int).toNat m1 → EntradasDeCeroANueve (2 : Int).toNat m2 →
        trazaVerificada 2 m1 m2 = .returns (sumaDoble (2 : Int).toNat m1 m2) ∧
        trazaDeProducto 2 m1 m2 = .returns (sumaDoble (2 : Int).toNat m1 m2) ∧
        0 ≤ sumaDoble (2 : Int).toNat m1 m2 ∧
        sumaDoble (2 : Int).toNat m1 m2 ≤ 81 * 2 * 2)) :=
  ⟨by decide, by decide, by decide, CalcularTraza_cotas 2 fuenteDeMuestra (by decide)⟩

/-! ## Claims about `main` -/

theorem append_salto_ne (x s : String) (c : Char) (hs : s.data.getLast? = some c)
    (hc : c ≠ '\n') : x ++ "\n" ≠ s := by
  intro h
  have hd := congrArg (fun t : String => t.data.getLast?) h
  have hx : (x ++ "\n").data = x.data ++ ['\n'] := by
    rw [String.data_append]
  simp only [hx, List.getLast?_append, hs] at hd
  simp at hd
  exact hc hd.symm

set_option maxRecDepth 8000 in
/-- C15 against the code: with the default flags, and with any other flag values, `main`
prints the four configuration lines and nothing else; no line is the notice of branch
`"A"` or of branch `"B"`, because `main` ends without calling `EjecucionSecuencial`. -/
theorem main_solo_imprime_configuracion :
    main 100 10000 "salida.txt"
      = [ "Configuración de la simulación:\n", "Dimensión de las matrices: 100\n",
          "Valor umbral: 10000\n", "Archivo de salida: salida.txt\n" ] ∧
    ∀ (n umbral : Int) (archivo : String),
      (main n umbral archivo).length = 4 ∧
      "Se ejecutará la rama A" ∉ main n umbral archivo ∧
      "Se ejecutará la rama B" ∉ main n umbral archivo := by
  refine ⟨by decide, fun n umbral archivo => ⟨rfl, ?_, ?_⟩⟩
  · intro h
    simp only [main, List.mem_cons, List.mem_singleton, List.not_mem_nil, or_false] at h
    have hA : ("Se ejecutará la rama A" : String).data.getLast? = some 'A' := by decide
    rcases h with h | h | h | h
    · exact absurd h (by decide)
    · exact append_salto_ne _ _ 'A' hA (by decide) h.symm
    · exact append_salto_ne _ _ 'A' hA (by decide) h.symm
    · exact append_salto_ne _ _ 'A' hA (by decide) h.symm
  · intro h
    simp only [main, List.mem_cons, List.mem_singleton, List.not_mem_nil, or_false] at h
    have hB : ("Se ejecutará la rama B" : String).data.getLast? = some 'B' := by decide
    rcases h with h | h | h | h
    · exact absurd h (by decide)
    · exact append_salto_ne _ _ 'B' hB (by decide) h.symm
    · exact append_salto_ne _ _ 'B' hB (by decide) h.symm
    · exact append_salto_ne _ _ 'B' hB (by decide) h.symm

end Control2
